import Mathlib

/-!
Verification of the availability/booking engine of the Medical Appointment
Scheduling repository (`src/backend/api/calendly_integration.py` and
`src/backend/tools/availability_tool.py`), as a shallow embedding in Lean.

Wall-clock times are strings in the canonical "HH:MM" format produced by
`strftime("%H:%M")` and consumed by `_parse_time`; calendar dates are strings
in the canonical "YYYY-MM-DD" format of `strftime("%Y-%m-%d")` and
`strptime(date_str, "%Y-%m-%d")`.  All time arithmetic is in minutes since
midnight, mirroring `_time_to_minutes` / `_minutes_to_time`.
-/

namespace Sched

/-- Decimal value of a digit character, `none` for non-digits. -/
def digit? (c : Char) : Option Nat :=
  if c.isDigit then some (c.toNat - 48) else none

/-- The digit character for `n < 10` (code point `48 + n`). -/
def digitChar (n : Nat) : Char := Char.ofNat (48 + n)

/-- Two-digit zero-padded decimal rendering, as a character list. -/
def render2 (n : Nat) : List Char := [digitChar (n / 10), digitChar (n % 10)]

/-- Parse "HH:MM" (as a character list) to minutes since midnight. -/
def parseTimeList : List Char → Option Nat
  | [h1, h2, c, m1, m2] =>
    if c = ':' then
      match digit? h1, digit? h2, digit? m1, digit? m2 with
      | some a, some b, some c2, some d =>
        if 10 * a + b < 24 ∧ 10 * c2 + d < 60 then
          some (60 * (10 * a + b) + (10 * c2 + d))
        else none
      | _, _, _, _ => none
    else none
  | _ => none

/-- Parse a time string "HH:MM" to minutes since midnight.

Mirrors `CalendlyMockAPI._parse_time` (`datetime.strptime(s, "%H:%M").time()`)
composed with `_time_to_minutes`: the hour must be below 24 and the minute
below 60, otherwise the parse fails.  Only the canonical zero-padded form is
accepted. -/
def parseTime (s : String) : Option Nat := parseTimeList s.toList

/-- Render minutes since midnight as "HH:MM", zero-padded: `strftime("%H:%M")`
composed with `_minutes_to_time`. -/
def renderTime (mins : Nat) : String :=
  ⟨render2 (mins / 60) ++ ':' :: render2 (mins % 60)⟩

/-- Gregorian leap-year rule, as in Python's `calendar`/`datetime`. -/
def isLeap (y : Nat) : Bool := (y % 4 = 0 && y % 100 ≠ 0) || y % 400 = 0

/-- Number of days in a month (month numbered 1..12). -/
def daysInMonth (y m : Nat) : Nat :=
  if m = 2 then (if isLeap y then 29 else 28)
  else if m = 4 ∨ m = 6 ∨ m = 9 ∨ m = 11 then 30
  else 31

/-- A calendar date, mirroring Python's `datetime.date`. -/
structure YMDDate where
  year : Nat
  month : Nat
  day : Nat
deriving DecidableEq, Repr

/-- Validity of a date: the constraints `datetime.date` enforces
(with the year capped at 9999, `datetime.MAXYEAR`). -/
def YMDDate.valid (d : YMDDate) : Bool :=
  1 ≤ d.year && d.year ≤ 9999 && 1 ≤ d.month && d.month ≤ 12 &&
    1 ≤ d.day && d.day ≤ daysInMonth d.year d.month

/-- Parse "YYYY-MM-DD" (as a character list) to a date, enforcing the
field-range checks `strptime` performs. -/
def parseDateList : List Char → Option YMDDate
  | [y1, y2, y3, y4, s1, m1, m2, s2, d1, d2] =>
    if s1 = '-' ∧ s2 = '-' then
      match digit? y1, digit? y2, digit? y3, digit? y4,
            digit? m1, digit? m2, digit? d1, digit? d2 with
      | some a, some b, some c, some d, some e, some f, some g, some h =>
        let y := 1000 * a + 100 * b + 10 * c + d
        let mo := 10 * e + f
        let da := 10 * g + h
        if 1 ≤ y ∧ 1 ≤ mo ∧ mo ≤ 12 ∧ 1 ≤ da ∧ da ≤ daysInMonth y mo then
          some ⟨y, mo, da⟩
        else none
      | _, _, _, _, _, _, _, _ => none
    else none
  | _ => none

/-- Parse a date string "YYYY-MM-DD".

Mirrors `datetime.strptime(date_str, "%Y-%m-%d").date()`: failure is a
`ValueError` in the source, `none` here.  Only the canonical zero-padded
form is accepted. -/
def parseDate (s : String) : Option YMDDate := parseDateList s.toList

/-- Four-digit zero-padded decimal rendering, as a character list. -/
def render4 (n : Nat) : List Char :=
  [digitChar (n / 1000), digitChar (n / 100 % 10), digitChar (n / 10 % 10), digitChar (n % 10)]

/-- Render a date as "YYYY-MM-DD": `check_date.strftime("%Y-%m-%d")`. -/
def renderDate (d : YMDDate) : String :=
  ⟨render4 d.year ++ '-' :: render2 d.month ++ '-' :: render2 d.day⟩

/-- Python's `date.weekday()`: 0 = Monday .. 6 = Sunday, computed by
Zeller's congruence. -/
def pyWeekday (d : YMDDate) : Nat :=
  let m := if d.month ≤ 2 then d.month + 12 else d.month
  let y := if d.month ≤ 2 then d.year - 1 else d.year
  let k := y % 100
  let j := y / 100
  (d.day + 13 * (m + 1) / 5 + k + k / 4 + j / 4 + 5 * j + 5) % 7

/-- `check_date.strftime("%A").lower()`: lowercase weekday name, as used to
key the `working_hours` mapping. -/
def dayName : Nat → String
  | 0 => "monday"
  | 1 => "tuesday"
  | 2 => "wednesday"
  | 3 => "thursday"
  | 4 => "friday"
  | 5 => "saturday"
  | _ => "sunday"

/-- `check_date.strftime("%A")`: capitalized weekday name, as stored in the
`day_name` field of `find_next_available_dates` results. -/
def dayNameCap : Nat → String
  | 0 => "Monday"
  | 1 => "Tuesday"
  | 2 => "Wednesday"
  | 3 => "Thursday"
  | 4 => "Friday"
  | 5 => "Saturday"
  | _ => "Sunday"

/-- Chronological comparison of dates (Python `date.__lt__`), lexicographic
on (year, month, day). -/
def dateLt (a b : YMDDate) : Bool :=
  a.year < b.year ||
    (a.year = b.year && (a.month < b.month ||
      (a.month = b.month && a.day < b.day)))

/-- The calendar day after `d` (what `timedelta(days=1)` adds). -/
def nextDay (d : YMDDate) : YMDDate :=
  if d.day < daysInMonth d.year d.month then ⟨d.year, d.month, d.day + 1⟩
  else if d.month < 12 then ⟨d.year, d.month + 1, 1⟩
  else ⟨d.year + 1, 1, 1⟩

/-- `today + timedelta(days=n)` as iterated `nextDay`. -/
def addDays (d : YMDDate) : Nat → YMDDate
  | 0 => d
  | n + 1 => nextDay (addDays d n)

/-- A booking record: the dict stored in `existing_appointments` and in
`CalendlyMockAPI.bookings` (the `type` key is `btype` here, since `type` is
reserved in Lean). -/
structure Booking where
  booking_id : String
  date : String
  start_time : String
  end_time : String
  btype : String
  patient_name : String
  patient_email : String
  patient_phone : String
  reason : String
  status : String
  confirmation_code : String
  created_at : String
deriving DecidableEq, Repr

/-- A `{start, end}` pair of wall-clock time strings (the `end` key is `stop`
here, since `end` is reserved in Lean). -/
structure WorkHours where
  start : String
  stop : String
deriving DecidableEq, Repr

/-- The static part of `schedule_data`: `working_hours` keyed by lowercase
weekday name, plus the optional `lunch_break`, `slot_duration_minutes` and
`buffer_time_minutes` entries (absent keys are `none`; the code reads them
with `.get` and a default).  `buffer_time_minutes` is loaded by
`get_availability` but never used. -/
structure Schedule where
  working_hours : String → Option WorkHours
  lunch_break : Option WorkHours
  slot_duration_minutes : Option Nat
  buffer_time_minutes : Option Nat

/-- `self.appointment_durations`, the fixed dict built in `__init__`. -/
def appointment_durations : String → Option Nat
  | "consultation" => some 30
  | "followup" => some 15
  | "physical" => some 45
  | "specialist" => some 60
  | _ => none

/-- `self.appointment_durations.get(appointment_type, 30)`: unknown type tags
fall back to 30 minutes. -/
def getDuration (t : String) : Nat := (appointment_durations t).getD 30

/-- `_get_working_hours` (and `_is_working_day` is `Option.isSome` of this):
look up the date's lowercase weekday name in `working_hours`. -/
def workingHoursFor (s : Schedule) (d : YMDDate) : Option WorkHours :=
  s.working_hours (dayName (pyWeekday d))

/-- `_get_lunch_break`: `schedule_data.get('lunch_break', {"start": "12:00", "end": "13:00"})`. -/
def lunchBreak (s : Schedule) : WorkHours := s.lunch_break.getD ⟨"12:00", "13:00"⟩

/-- `schedule_data.get('slot_duration_minutes', 15)`. -/
def slotStep (s : Schedule) : Nat := s.slot_duration_minutes.getD 15

/-- One confirmed same-date booking blocking the candidate interval
`[slotStart, slotEnd)`: the loop body of `_is_slot_available`'s final check.
(If a matching booking's stored times were unparseable the source would raise
`ValueError`; here that returns `false`, and every theorem assumes a
well-formed store where it cannot happen.) -/
def bookingBlocks (dateStr : String) (slotStart slotEnd : Nat) (b : Booking) : Bool :=
  b.date == dateStr && b.status == "confirmed" &&
    match parseTime b.start_time, parseTime b.end_time with
    | some bs, some be => !(slotEnd ≤ bs || slotStart ≥ be)
    | _, _ => false

/-- `CalendlyMockAPI._is_slot_available(check_date, start_time, duration)`.

The start time argument is already in minutes since midnight (in the source
it is a `time` object, converted with `_time_to_minutes` on entry).  The
working-day check and the working-hours lookup are the same dict lookup in
the source; unparseable config times would raise in the source and yield
`false` here (excluded by `Schedule.wf` in every theorem). -/
def _is_slot_available (s : Schedule) (bookings : List Booking) (check_date : YMDDate)
    (slotStart dur : Nat) : Bool :=
  match workingHoursFor s check_date with
  | none => false
  | some wh =>
    match parseTime wh.start, parseTime wh.stop with
    | some ws, some we =>
      if slotStart < ws || slotStart + dur > we then false
      else
        match parseTime (lunchBreak s).start, parseTime (lunchBreak s).stop with
        | some ls, some le =>
          if !(slotStart + dur ≤ ls || slotStart ≥ le) then false
          else
            bookings.all
              (fun b => !(bookingBlocks (renderDate check_date) slotStart (slotStart + dur) b))
        | _, _ => false
    | _, _ => false

/-- A generated availability slot. -/
structure Slot where
  start_time : String
  end_time : String
  available : Bool
deriving DecidableEq, Repr

/-- The `{date, available_slots}` dict returned by `get_availability`. -/
structure Availability where
  date : String
  available_slots : List Slot
deriving DecidableEq, Repr

/-- The body of the `while current_mins + duration <= end_mins` loop of
`get_availability`, with an explicit iteration budget (`fuel`) to make the
recursion structural.  With a positive `step` the loop runs at most
`endMins + 1 - currentMins` times, so `genSlots` below supplies enough fuel
for the budget never to run out; with `step = 0` the source loop would never
terminate (when it is entered), and `Schedule.wf` requires `step > 0`. -/
def genSlotsAux (s : Schedule) (bookings : List Booking) (check_date : YMDDate)
    (dur step : Nat) : Nat → Nat → Nat → List Slot
  | 0, _, _ => []
  | fuel + 1, currentMins, endMins =>
    if currentMins + dur ≤ endMins then
      { start_time := renderTime currentMins,
        end_time := renderTime (currentMins + dur),
        available := _is_slot_available s bookings check_date currentMins dur } ::
        genSlotsAux s bookings check_date dur step fuel (currentMins + step) endMins
    else []

/-- The slot grid produced by `get_availability`'s while loop. -/
def genSlots (s : Schedule) (bookings : List Booking) (check_date : YMDDate)
    (dur step currentMins endMins : Nat) : List Slot :=
  genSlotsAux s bookings check_date dur step (endMins + 1) currentMins endMins

/-- `CalendlyMockAPI.get_availability(date_str, appointment_type)`.

`today` is `datetime.now(self.timezone).date()`, made an explicit argument. -/
def get_availability (s : Schedule) (bookings : List Booking) (today : YMDDate)
    (date_str appointment_type : String) : Availability :=
  match parseDate date_str with
  | none => ⟨date_str, []⟩
  | some check_date =>
    if dateLt check_date today then ⟨date_str, []⟩
    else
      let dur := getDuration appointment_type
      match workingHoursFor s check_date with
      | none => ⟨date_str, []⟩
      | some wh =>
        match parseTime wh.start, parseTime wh.stop with
        | some ws, some we =>
          ⟨date_str, genSlots s bookings check_date dur (slotStep s) ws we⟩
        | _, _ => ⟨date_str, []⟩

/-- `int(slot['start_time'].split(':')[0])` (raises in the source on
non-numeric input, which cannot happen for generated slots). -/
def slotStartHour (slot : Slot) : Nat :=
  (((slot.start_time.splitOn ":").headD "").toNat?).getD 0

/-- `CalendlyMockAPI.get_available_slots_only(date_str, appointment_type, time_preference)`.

`time_preference.getD ""` captures Python truthiness: `None` and `""` both
skip the preference block. -/
def get_available_slots_only (s : Schedule) (bookings : List Booking) (today : YMDDate)
    (date_str appointment_type : String) (time_preference : Option String) : List Slot :=
  let availability := get_availability s bookings today date_str appointment_type
  let available_slots := availability.available_slots.filter (·.available)
  let tp := time_preference.getD ""
  if tp ≠ "" ∧ available_slots ≠ [] then
    available_slots.filter (fun slot =>
      let hour := slotStartHour slot
      decide ((tp = "morning" ∧ 6 ≤ hour ∧ hour < 12) ∨
              (tp = "afternoon" ∧ 12 ≤ hour ∧ hour < 17) ∨
              (tp = "evening" ∧ 17 ≤ hour ∧ hour < 22)))
  else available_slots

/-- The patient dict passed to `book_appointment`. -/
structure Patient where
  name : String
  email : String
  phone : String
deriving DecidableEq, Repr

/-- The dict returned by `book_appointment`.  On success, `details` echoes the
inputs plus the computed end time and duration; only its `error` key matters
to the claims, so `details` is modelled by the `error` field. -/
structure BookResult where
  booking_id : Option String
  status : String
  confirmation_code : Option String
  error : Option String
deriving DecidableEq, Repr

/-- `CalendlyMockAPI.book_appointment(appointment_type, date_str, start_time, patient, reason)`.

Returns the result dict together with the updated booking store
(`self.bookings` after `_save_booking`, which appends the new record and
rewrites the schedule file).  The generated `booking_id`,
`confirmation_code` (random uuids) and `created_at` timestamp are explicit
arguments. -/
def book_appointment (s : Schedule) (bookings : List Booking)
    (appointment_type date_str start_time : String) (patient : Patient) (reason : String)
    (booking_id confirmation_code created_at : String) : BookResult × List Booking :=
  match parseDate date_str, parseTime start_time with
  | some check_date, some slotStart =>
    let dur := getDuration appointment_type
    if _is_slot_available s bookings check_date slotStart dur then
      let booking : Booking :=
        { booking_id := booking_id
          date := date_str
          start_time := start_time
          end_time := renderTime (slotStart + dur)
          btype := appointment_type
          patient_name := patient.name
          patient_email := patient.email
          patient_phone := patient.phone
          reason := reason
          status := "confirmed"
          confirmation_code := confirmation_code
          created_at := created_at }
      ({ booking_id := some booking_id
         status := "confirmed"
         confirmation_code := some confirmation_code
         error := none },
       bookings ++ [booking])
    else
      ({ booking_id := none
         status := "failed"
         confirmation_code := none
         error := some "Time slot is not available" }, bookings)
  | _, _ =>
    ({ booking_id := none
       status := "failed"
       confirmation_code := none
       error := some "Invalid date or time format" }, bookings)

/-- `CalendlyMockAPI.get_booking(booking_id)`: first record with that id. -/
def get_booking (bookings : List Booking) (booking_id : String) : Option Booking :=
  bookings.find? (fun b => b.booking_id == booking_id)

/-- `CalendlyMockAPI.cancel_booking(booking_id)`.

The source mutates the first matching dict's `status` in place and then calls
`_save_booking(booking)`, which appends the very same dict to `self.bookings`
again; both list entries afterwards alias one cancelled record.  In this
immutable model the updated record appears both at its original position and
appended at the end. -/
def cancel_booking : List Booking → String → Bool × List Booking
  | [], _ => (false, [])
  | b :: rest, bid =>
    if b.booking_id == bid then
      let cancelled := { b with status := "cancelled" }
      (true, cancelled :: rest ++ [cancelled])
    else
      let r := cancel_booking rest bid
      (r.1, b :: r.2)

/-- One entry of the list returned by
`AvailabilityTool.find_next_available_dates`. -/
structure DateInfo where
  date : String
  day_name : String
  available_slots : List Slot
  total_slots : Nat
deriving DecidableEq, Repr

/-- The `for i in range(1, days_to_check + 1)` loop of
`find_next_available_dates`: `i` is the current day offset, `r` the number of
offsets still to scan, `acc` the `available_dates` accumulator.  Each
qualifying day stores only its first five available slots
(`result['available_slots'][:5]`), and the scan stops as soon as `max_dates`
days were collected. -/
def findDatesLoop (s : Schedule) (bookings : List Booking) (today : YMDDate)
    (atype : String) (tp : Option String) (max_dates : Nat) :
    Nat → Nat → List DateInfo → List DateInfo
  | _, 0, acc => acc
  | i, r + 1, acc =>
    let check_date := addDays today i
    let date_str := renderDate check_date
    let slots := get_available_slots_only s bookings today date_str atype tp
    if slots.length > 0 then
      let acc2 := acc ++
        [⟨date_str, dayNameCap (pyWeekday check_date), slots.take 5, slots.length⟩]
      if max_dates ≤ acc2.length then acc2
      else findDatesLoop s bookings today atype tp max_dates (i + 1) r acc2
    else findDatesLoop s bookings today atype tp max_dates (i + 1) r acc

/-- `AvailabilityTool.find_next_available_dates(appointment_type, days_to_check, max_dates, time_preference)`.

`today` is `datetime.now().date()`, made an explicit argument (taken to agree
with the timezone-aware "today" used by `get_availability`). -/
def find_next_available_dates (s : Schedule) (bookings : List Booking) (today : YMDDate)
    (atype : String) (days_to_check max_dates : Nat) (tp : Option String) : List DateInfo :=
  findDatesLoop s bookings today atype tp max_dates 1 days_to_check []

/-- One entry of the list returned by `AvailabilityTool.suggest_slots`. -/
structure Suggestion where
  date : String
  start_time : String
  end_time : String
  day_name : String
deriving DecidableEq, Repr

/-- Build a suggestion entry from a slot. -/
def tagSlot (date day_name : String) (slot : Slot) : Suggestion :=
  ⟨date, slot.start_time, slot.end_time, day_name⟩

/-- The inner `for slot in date_info['available_slots']` loop of
`suggest_slots` (no-preferred-date branch), with its early exit once
`num_suggestions` entries were collected. -/
def suggestInner (date day_name : String) (num : Nat) :
    List Slot → List Suggestion → List Suggestion
  | [], acc => acc
  | slot :: rest, acc =>
    if num ≤ acc.length then acc
    else suggestInner date day_name num rest (acc ++ [tagSlot date day_name slot])

/-- The outer `for date_info in available_dates` loop of `suggest_slots`
(no-preferred-date branch). -/
def suggestOuter (num : Nat) : List DateInfo → List Suggestion → List Suggestion
  | [], acc => acc
  | di :: rest, acc =>
    let acc2 := suggestInner di.date di.day_name num di.available_slots acc
    if num ≤ acc2.length then acc2 else suggestOuter num rest acc2

/-- `AvailabilityTool.suggest_slots(preferred_date, appointment_type, time_preference, num_suggestions)`.

In the preferred-date branch the source computes the weekday name with
`datetime.strptime(preferred_date, ...)` inside the slot loop; the loop runs
only when there is at least one available slot, which forces the date to have
parsed successfully, so the `getD` fallback is never taken there. -/
def suggest_slots (s : Schedule) (bookings : List Booking) (today : YMDDate)
    (preferred_date : Option String) (atype : String) (tp : Option String)
    (num_suggestions : Nat) : List Suggestion :=
  match preferred_date with
  | some pd =>
    let slots := get_available_slots_only s bookings today pd atype tp
    if slots.length > 0 then
      (slots.take num_suggestions).map
        (tagSlot pd (dayNameCap (pyWeekday ((parseDate pd).getD ⟨1, 1, 1⟩))))
    else []
  | none =>
    let dates := find_next_available_dates s bookings today atype 14 5 tp
    suggestOuter num_suggestions dates []

/-- Well-formedness of the loaded schedule config: every configured
working-hours and lunch-break time string parses, and the slot granularity is
positive.  Unparseable config times would raise `ValueError` in the source,
and a zero granularity would make its slot loop diverge. -/
def Schedule.wf (s : Schedule) : Bool :=
  ((List.range 7).all fun i =>
    match s.working_hours (dayName i) with
    | some wh => (parseTime wh.start).isSome && (parseTime wh.stop).isSome
    | none => true) &&
  (parseTime (lunchBreak s).start).isSome &&
  (parseTime (lunchBreak s).stop).isSome &&
  decide (0 < slotStep s)

/-- The slot emitted for candidate start minute `c`. -/
def mkSlot (s : Schedule) (bookings : List Booking) (check_date : YMDDate)
    (dur c : Nat) : Slot :=
  { start_time := renderTime c
    end_time := renderTime (c + dur)
    available := _is_slot_available s bookings check_date c dur }

/-- Start-time key of a slot, in minutes. -/
def slotMins (sl : Slot) : Nat := (parseTime sl.start_time).getD 0

/-- The spec's overlap rule for half-open intervals `[a0, a1)` and `[b0, b1)`:
overlap iff `a0 < b1` and `b0 < a1`; touching endpoints do not overlap. -/
def overlaps (a0 a1 b0 b1 : Nat) : Prop := a0 < b1 ∧ b0 < a1

/-- Well-formedness of the booking store: every record's stored times parse.
(`_is_slot_available` would raise `ValueError` on a store violating this.) -/
def StoreWF (bookings : List Booking) : Prop :=
  ∀ b ∈ bookings, (∃ x, parseTime b.start_time = some x) ∧ ∃ y, parseTime b.end_time = some y

/-- Concrete schedule for the witnesses: Monday-Friday 09:00-17:00, lunch
12:00-13:00, 15-minute granularity, 5-minute buffer (the shape of
`data/doctor_schedule.json` described in the repository). -/
def demoSchedule : Schedule :=
  { working_hours := fun day =>
      if day = "monday" ∨ day = "tuesday" ∨ day = "wednesday" ∨
          day = "thursday" ∨ day = "friday"
      then some ⟨"09:00", "17:00"⟩ else none
    lunch_break := some ⟨"12:00", "13:00"⟩
    slot_duration_minutes := some 15
    buffer_time_minutes := some 5 }

/-- Concrete "today" for the witnesses: Sunday 2025-10-12. -/
def demoToday : YMDDate := ⟨2025, 10, 12⟩

/-- Concrete patient for the witnesses. -/
def demoPatient : Patient := ⟨"Jane Doe", "jane@example.com", "555-0100"⟩

/-- Two booking records do not conflict: if both are confirmed on the same
date string, their parsed half-open intervals do not overlap (spec rule). -/
def noConflict (b1 b2 : Booking) : Prop :=
  b1.date = b2.date → b1.status = "confirmed" → b2.status = "confirmed" →
    ∀ s1 e1 s2 e2, parseTime b1.start_time = some s1 →
      parseTime b1.end_time = some e1 → parseTime b2.start_time = some s2 →
        parseTime b2.end_time = some e2 → ¬ overlaps s1 e1 s2 e2

/-- The store invariant: confirmed bookings are pairwise non-overlapping per
date (cancelled records are exempt). -/
def StoreOK (bookings : List Booking) : Prop := List.Pairwise noConflict bookings

/-- One external mutation of the booking store. -/
inductive Op where
  | bookOp (atype date_str start_time : String) (patient : Patient)
      (reason bid code created : String)
  | cancelOp (bid : String)

/-- Apply one operation to the store, keeping the resulting store state. -/
def applyOp (s : Schedule) (bookings : List Booking) : Op → List Booking
  | Op.bookOp atype ds st patient reason bid code created =>
    (book_appointment s bookings atype ds st patient reason bid code created).2
  | Op.cancelOp bid => (cancel_booking bookings bid).2

/-- Apply a sequence of book/cancel operations. -/
def applyOps (s : Schedule) : List Op → List Booking → List Booking
  | [], bookings => bookings
  | op :: ops, bookings => applyOps s ops (applyOp s bookings op)

/-- The available (preference-filtered) slots of the day `offset` days after
today, as scanned by `find_next_available_dates`. -/
def daySlots (s : Schedule) (bookings : List Booking) (today : YMDDate)
    (atype : String) (tp : Option String) (offset : Nat) : List Slot :=
  get_available_slots_only s bookings today (renderDate (addDays today offset)) atype tp

/-- The `available_dates` entry built for a qualifying day. -/
def mkDateInfo (s : Schedule) (bookings : List Booking) (today : YMDDate)
    (atype : String) (tp : Option String) (offset : Nat) : DateInfo :=
  { date := renderDate (addDays today offset)
    day_name := dayNameCap (pyWeekday (addDays today offset))
    available_slots := (daySlots s bookings today atype tp offset).take 5
    total_slots := (daySlots s bookings today atype tp offset).length }

/-- Second concrete schedule, for the C6 counterexample: Monday 09:00-12:00
(six 30-minute consultation slots at 30-minute granularity), Tuesday
09:00-10:00 (two slots), no other working days. -/
def demoSchedule2 : Schedule :=
  { working_hours := fun day =>
      if day = "monday" then some ⟨"09:00", "12:00"⟩
      else if day = "tuesday" then some ⟨"09:00", "10:00"⟩
      else none
    lunch_break := some ⟨"12:00", "13:00"⟩
    slot_duration_minutes := some 30
    buffer_time_minutes := some 5 }

theorem digitChar_of_digit? {c : Char} {a : Nat} (h : digit? c = some a) :
    digitChar a = c ∧ a < 10 := by
  unfold digit? at h
  by_cases hd : c.isDigit
  · simp only [hd, if_true, Option.some.injEq] at h
    have hv : 48 ≤ c.toNat ∧ c.toNat ≤ 57 := by
      unfold Char.isDigit at hd
      simp only [Bool.and_eq_true, decide_eq_true_eq] at hd
      exact hd
    constructor
    · subst h
      unfold digitChar
      have h48 : 48 + (c.toNat - 48) = c.toNat := by omega
      rw [h48]
      exact Char.ofNat_toNat c
    · omega
  · simp [hd] at h

theorem digit?_digitChar {n : Nat} (h : n < 10) : digit? (digitChar n) = some n := by
  interval_cases n <;> rfl

theorem parseTimeList_lt {cs : List Char} {t : Nat}
    (h : parseTimeList cs = some t) : t < 1440 := by
  match cs with
  | [] => simp [parseTimeList] at h
  | [a] => simp [parseTimeList] at h
  | [a, b] => simp [parseTimeList] at h
  | [a, b, c] => simp [parseTimeList] at h
  | [a, b, c, d] => simp [parseTimeList] at h
  | a :: b :: c :: d :: e :: f :: rest => simp [parseTimeList] at h
  | [h1, h2, c, m1, m2] =>
    simp only [parseTimeList] at h
    split at h
    · rcases ha : digit? h1 with _ | a <;> rw [ha] at h
      · simp at h
      rcases hb : digit? h2 with _ | b <;> rw [hb] at h
      · simp at h
      rcases hc : digit? m1 with _ | c2 <;> rw [hc] at h
      · simp at h
      rcases hd : digit? m2 with _ | d <;> rw [hd] at h
      · simp at h
      simp only [] at h
      split at h
      · simp only [Option.some.injEq] at h; omega
      · simp at h
    · simp at h

theorem parseTime_lt {s : String} {t : Nat} (h : parseTime s = some t) : t < 1440 :=
  parseTimeList_lt h

theorem renderTime_parseTimeList {cs : List Char} {t : Nat}
    (h : parseTimeList cs = some t) : (renderTime t).toList = cs := by
  match cs with
  | [] => simp [parseTimeList] at h
  | [a] => simp [parseTimeList] at h
  | [a, b] => simp [parseTimeList] at h
  | [a, b, c] => simp [parseTimeList] at h
  | [a, b, c, d] => simp [parseTimeList] at h
  | a :: b :: c :: d :: e :: f :: rest => simp [parseTimeList] at h
  | [h1, h2, c, m1, m2] =>
    simp only [parseTimeList] at h
    split at h
    case isFalse => simp at h
    case isTrue hcol =>
    subst hcol
    rcases ha : digit? h1 with _ | a <;> rw [ha] at h
    · simp at h
    rcases hb : digit? h2 with _ | b <;> rw [hb] at h
    · simp at h
    rcases hc : digit? m1 with _ | c2 <;> rw [hc] at h
    · simp at h
    rcases hd : digit? m2 with _ | d <;> rw [hd] at h
    · simp at h
    simp only [] at h
    split at h
    case isFalse => simp at h
    case isTrue hlt =>
    simp only [Option.some.injEq] at h
    subst h
    obtain ⟨ea, la⟩ := digitChar_of_digit? ha
    obtain ⟨eb, lb⟩ := digitChar_of_digit? hb
    obtain ⟨ec, lc⟩ := digitChar_of_digit? hc
    obtain ⟨ed, ld⟩ := digitChar_of_digit? hd
    have hdiv : (60 * (10 * a + b) + (10 * c2 + d)) / 60 = 10 * a + b := by omega
    have hmod : (60 * (10 * a + b) + (10 * c2 + d)) % 60 = 10 * c2 + d := by omega
    have h1a : (10 * a + b) / 10 = a := by omega
    have h1b : (10 * a + b) % 10 = b := by omega
    have h2c : (10 * c2 + d) / 10 = c2 := by omega
    have h2d : (10 * c2 + d) % 10 = d := by omega
    unfold renderTime render2
    rw [hdiv, hmod, h1a, h1b, h2c, h2d, ea, eb, ec, ed]
    rfl

theorem renderTime_parseTime {s : String} {t : Nat} (h : parseTime s = some t) :
    renderTime t = s := by
  have := renderTime_parseTimeList (show parseTimeList s.toList = some t from h)
  apply String.ext
  rw [show (renderTime t).toList = (renderTime t).data from rfl] at this
  rw [this]
  rfl

theorem parseTime_renderTime {t : Nat} (h : t < 1440) :
    parseTime (renderTime t) = some t := by
  have l1 : t / 60 / 10 < 10 := by omega
  have l2 : t / 60 % 10 < 10 := by omega
  have l3 : t % 60 / 10 < 10 := by omega
  have l4 : t % 60 % 10 < 10 := by omega
  show parseTimeList (renderTime t).toList = some t
  have hl : (renderTime t).toList =
      [digitChar (t / 60 / 10), digitChar (t / 60 % 10), ':',
       digitChar (t % 60 / 10), digitChar (t % 60 % 10)] := rfl
  rw [hl]
  simp only [parseTimeList, if_true]
  rw [digit?_digitChar l1, digit?_digitChar l2, digit?_digitChar l3, digit?_digitChar l4]
  simp only []
  have e1 : 10 * (t / 60 / 10) + t / 60 % 10 = t / 60 := by omega
  have e2 : 10 * (t % 60 / 10) + t % 60 % 10 = t % 60 := by omega
  rw [e1, e2]
  have hcond : t / 60 < 24 ∧ t % 60 < 60 := by omega
  rw [if_pos hcond]
  congr 1
  omega

theorem renderDate_parseDateList {cs : List Char} {d : YMDDate}
    (h : parseDateList cs = some d) : (renderDate d).toList = cs ∧ d.year ≤ 9999 := by
  match cs with
  | [y1, y2, y3, y4, s1, m1, m2, s2, d1, d2] =>
    simp only [parseDateList] at h
    split at h
    case isFalse => simp at h
    case isTrue hsep =>
    obtain ⟨hs1, hs2⟩ := hsep
    subst hs1; subst hs2
    rcases h1 : digit? y1 with _ | a <;> rw [h1] at h
    · simp at h
    rcases h2 : digit? y2 with _ | b <;> rw [h2] at h
    · simp at h
    rcases h3 : digit? y3 with _ | c <;> rw [h3] at h
    · simp at h
    rcases h4 : digit? y4 with _ | dd <;> rw [h4] at h
    · simp at h
    rcases h5 : digit? m1 with _ | e <;> rw [h5] at h
    · simp at h
    rcases h6 : digit? m2 with _ | f <;> rw [h6] at h
    · simp at h
    rcases h7 : digit? d1 with _ | g <;> rw [h7] at h
    · simp at h
    rcases h8 : digit? d2 with _ | hh <;> rw [h8] at h
    · simp at h
    simp only [] at h
    split at h
    case isFalse => simp at h
    case isTrue hrange =>
    simp only [Option.some.injEq] at h
    subst h
    obtain ⟨e1, l1⟩ := digitChar_of_digit? h1
    obtain ⟨e2, l2⟩ := digitChar_of_digit? h2
    obtain ⟨e3, l3⟩ := digitChar_of_digit? h3
    obtain ⟨e4, l4⟩ := digitChar_of_digit? h4
    obtain ⟨e5, l5⟩ := digitChar_of_digit? h5
    obtain ⟨e6, l6⟩ := digitChar_of_digit? h6
    obtain ⟨e7, l7⟩ := digitChar_of_digit? h7
    obtain ⟨e8, l8⟩ := digitChar_of_digit? h8
    constructor
    · unfold renderDate render4 render2
      have ha : (1000 * a + 100 * b + 10 * c + dd) / 1000 = a := by omega
      have hb : (1000 * a + 100 * b + 10 * c + dd) / 100 % 10 = b := by omega
      have hc : (1000 * a + 100 * b + 10 * c + dd) / 10 % 10 = c := by omega
      have hd : (1000 * a + 100 * b + 10 * c + dd) % 10 = dd := by omega
      have he : (10 * e + f) / 10 = e := by omega
      have hf : (10 * e + f) % 10 = f := by omega
      have hg : (10 * g + hh) / 10 = g := by omega
      have hi : (10 * g + hh) % 10 = hh := by omega
      rw [ha, hb, hc, hd, he, hf, hg, hi, e1, e2, e3, e4, e5, e6, e7, e8]
      rfl
    · show 1000 * a + 100 * b + 10 * c + dd ≤ 9999
      omega
  | [] => simp [parseDateList] at h
  | [c1] => simp [parseDateList] at h
  | [c1, c2] => simp [parseDateList] at h
  | [c1, c2, c3] => simp [parseDateList] at h
  | [c1, c2, c3, c4] => simp [parseDateList] at h
  | [c1, c2, c3, c4, c5] => simp [parseDateList] at h
  | [c1, c2, c3, c4, c5, c6] => simp [parseDateList] at h
  | [c1, c2, c3, c4, c5, c6, c7] => simp [parseDateList] at h
  | [c1, c2, c3, c4, c5, c6, c7, c8] => simp [parseDateList] at h
  | [c1, c2, c3, c4, c5, c6, c7, c8, c9] => simp [parseDateList] at h
  | c1 :: c2 :: c3 :: c4 :: c5 :: c6 :: c7 :: c8 :: c9 :: c10 :: c11 :: rest =>
    simp [parseDateList] at h

theorem renderDate_parseDate {s : String} {d : YMDDate} (h : parseDate s = some d) :
    renderDate d = s := by
  have := (renderDate_parseDateList (show parseDateList s.toList = some d from h)).1
  apply String.ext
  rw [show (renderDate d).toList = (renderDate d).data from rfl] at this
  rw [this]
  rfl

theorem parseDate_valid {s : String} {d : YMDDate} (h : parseDate s = some d) :
    d.valid = true := by
  unfold parseDate at h
  match hcs : s.toList, h with
  | [y1, y2, y3, y4, s1, m1, m2, s2, d1, d2], h => ?_
  · simp only [parseDateList] at h
    split at h
    case isFalse => simp at h
    case isTrue hsep =>
    rcases h1 : digit? y1 with _ | a <;> rw [h1] at h
    · simp at h
    rcases h2 : digit? y2 with _ | b <;> rw [h2] at h
    · simp at h
    rcases h3 : digit? y3 with _ | c <;> rw [h3] at h
    · simp at h
    rcases h4 : digit? y4 with _ | dd <;> rw [h4] at h
    · simp at h
    rcases h5 : digit? m1 with _ | e <;> rw [h5] at h
    · simp at h
    rcases h6 : digit? m2 with _ | f <;> rw [h6] at h
    · simp at h
    rcases h7 : digit? d1 with _ | g <;> rw [h7] at h
    · simp at h
    rcases h8 : digit? d2 with _ | hh <;> rw [h8] at h
    · simp at h
    simp only [] at h
    split at h
    case isFalse => simp at h
    case isTrue hrange =>
    simp only [Option.some.injEq] at h
    subst h
    obtain ⟨-, l1⟩ := digitChar_of_digit? h1
    obtain ⟨-, l2⟩ := digitChar_of_digit? h2
    obtain ⟨-, l3⟩ := digitChar_of_digit? h3
    obtain ⟨-, l4⟩ := digitChar_of_digit? h4
    unfold YMDDate.valid
    simp only [Bool.and_eq_true, decide_eq_true_eq]
    omega

theorem dateLt_trans {a b c : YMDDate} (h1 : dateLt a b = true)
    (h2 : dateLt b c = true) : dateLt a c = true := by
  unfold dateLt at *
  simp only [Bool.or_eq_true, Bool.and_eq_true, decide_eq_true_eq] at *
  omega

theorem daysInMonth_ge (y m : Nat) : 28 ≤ daysInMonth y m := by
  unfold daysInMonth
  split
  · split <;> omega
  · split <;> omega

theorem dateLt_nextDay {d : YMDDate} : dateLt d (nextDay d) = true := by
  unfold nextDay dateLt
  split
  · simp only [Bool.or_eq_true, Bool.and_eq_true, decide_eq_true_eq]
    exact Or.inr ⟨trivial, Or.inr ⟨trivial, by omega⟩⟩
  · split
    · simp only [Bool.or_eq_true, Bool.and_eq_true, decide_eq_true_eq]
      exact Or.inr ⟨trivial, Or.inl (by omega)⟩
    · simp only [Bool.or_eq_true, Bool.and_eq_true, decide_eq_true_eq]
      exact Or.inl (by omega)

theorem nextDay_valid {d : YMDDate} (hv : d.valid = true) (hy : d.year ≤ 9998) :
    (nextDay d).valid = true ∧ (nextDay d).year ≤ d.year + 1 := by
  unfold YMDDate.valid at *
  simp only [Bool.and_eq_true, decide_eq_true_eq] at *
  unfold nextDay
  split
  case isTrue hlt =>
    simp only [Bool.and_eq_true, decide_eq_true_eq]
    omega
  case isFalse hge =>
    split
    case isTrue hm =>
      have := daysInMonth_ge d.year (d.month + 1)
      simp only [Bool.and_eq_true, decide_eq_true_eq]
      omega
    case isFalse hm =>
      have := daysInMonth_ge (d.year + 1) 1
      simp only [Bool.and_eq_true, decide_eq_true_eq]
      omega

theorem addDays_valid {d : YMDDate} (hv : d.valid = true) :
    ∀ n : Nat, d.year + n ≤ 9999 →
      (addDays d n).valid = true ∧ (addDays d n).year ≤ d.year + n
  | 0, _ => ⟨hv, by simp [addDays]⟩
  | n + 1, hy => by
    obtain ⟨hv1, hy1⟩ := addDays_valid hv n (by omega)
    obtain ⟨hv2, hy2⟩ := nextDay_valid hv1 (by omega)
    exact ⟨hv2, by simpa [addDays] using by omega⟩

theorem addDays_lt {d : YMDDate} (hv : d.valid = true) :
    ∀ {i j : Nat}, d.year + j ≤ 9999 → i < j →
      dateLt (addDays d i) (addDays d j) = true := by
  intro i j
  induction j with
  | zero => omega
  | succ k ih =>
    intro hy hij
    have hk := addDays_valid hv k (by omega)
    by_cases hik : i = k
    · subst hik
      exact dateLt_nextDay
    · exact dateLt_trans (ih (by omega) (by omega)) dateLt_nextDay

theorem pyWeekday_lt (d : YMDDate) : pyWeekday d < 7 := by
  unfold pyWeekday
  exact Nat.mod_lt _ (by omega)

theorem wf_workingHours {s : Schedule} (hwf : s.wf = true) {d : YMDDate} {wh : WorkHours}
    (h : workingHoursFor s d = some wh) :
    (∃ ws, parseTime wh.start = some ws) ∧ ∃ we, parseTime wh.stop = some we := by
  unfold Schedule.wf at hwf
  simp only [Bool.and_eq_true, List.all_eq_true, decide_eq_true_eq] at hwf
  obtain ⟨⟨⟨hall, -⟩, -⟩, -⟩ := hwf
  have hmem : pyWeekday d ∈ List.range 7 := List.mem_range.mpr (pyWeekday_lt d)
  have := hall _ hmem
  unfold workingHoursFor at h
  rw [h] at this
  simp only [Bool.and_eq_true, Option.isSome_iff_exists] at this
  exact this

theorem wf_lunch {s : Schedule} (hwf : s.wf = true) :
    (∃ ls, parseTime (lunchBreak s).start = some ls) ∧
      ∃ le, parseTime (lunchBreak s).stop = some le := by
  unfold Schedule.wf at hwf
  simp only [Bool.and_eq_true, List.all_eq_true, decide_eq_true_eq] at hwf
  obtain ⟨⟨⟨-, h1⟩, h2⟩, -⟩ := hwf
  rw [Option.isSome_iff_exists] at h1 h2
  exact ⟨h1, h2⟩

theorem wf_step {s : Schedule} (hwf : s.wf = true) : 0 < slotStep s := by
  unfold Schedule.wf at hwf
  simp only [Bool.and_eq_true, List.all_eq_true, decide_eq_true_eq] at hwf
  exact hwf.2

theorem parseDate_renderDate {d : YMDDate} (hv : d.valid = true) :
    parseDate (renderDate d) = some d := by
  unfold YMDDate.valid at hv
  simp only [Bool.and_eq_true, decide_eq_true_eq] at hv
  obtain ⟨⟨⟨⟨⟨hy1, hy2⟩, hm1⟩, hm2⟩, hd1⟩, hd2⟩ := hv
  have ly1 : d.year / 1000 < 10 := by omega
  have ly2 : d.year / 100 % 10 < 10 := by omega
  have ly3 : d.year / 10 % 10 < 10 := by omega
  have ly4 : d.year % 10 < 10 := by omega
  have lm1 : d.month / 10 < 10 := by omega
  have lm2 : d.month % 10 < 10 := by omega
  have ld1 : d.day / 10 < 10 := by
    have := daysInMonth_ge d.year d.month
    have hle : daysInMonth d.year d.month ≤ 31 := by
      unfold daysInMonth
      split
      · split <;> omega
      · split <;> omega
    omega
  have ld2 : d.day % 10 < 10 := by omega
  show parseDateList (renderDate d).toList = some d
  have hl : (renderDate d).toList =
      [digitChar (d.year / 1000), digitChar (d.year / 100 % 10),
       digitChar (d.year / 10 % 10), digitChar (d.year % 10), '-',
       digitChar (d.month / 10), digitChar (d.month % 10), '-',
       digitChar (d.day / 10), digitChar (d.day % 10)] := rfl
  rw [hl]
  simp only [parseDateList, and_self, if_true]
  rw [digit?_digitChar ly1, digit?_digitChar ly2, digit?_digitChar ly3, digit?_digitChar ly4,
    digit?_digitChar lm1, digit?_digitChar lm2, digit?_digitChar ld1, digit?_digitChar ld2]
  simp only []
  have ey : 1000 * (d.year / 1000) + 100 * (d.year / 100 % 10) +
      10 * (d.year / 10 % 10) + d.year % 10 = d.year := by omega
  have em : 10 * (d.month / 10) + d.month % 10 = d.month := by omega
  have ed : 10 * (d.day / 10) + d.day % 10 = d.day := by omega
  rw [ey, em, ed]
  rw [if_pos ⟨by omega, by omega, hm2, hd1, hd2⟩]

theorem genSlotsAux_getElem? (s : Schedule) (bookings : List Booking) (check_date : YMDDate)
    (dur step : Nat) (hstep : 0 < step) (we : Nat) :
    ∀ (k cur fuel : Nat), we + 1 ≤ fuel + cur →
      (genSlotsAux s bookings check_date dur step fuel cur we)[k]? =
        if cur + k * step + dur ≤ we then
          some (mkSlot s bookings check_date dur (cur + k * step))
        else none := by
  intro k
  induction k with
  | zero =>
    intro cur fuel hfuel
    match fuel with
    | 0 =>
      unfold genSlotsAux
      simp only [List.getElem?_nil]
      rw [if_neg (by omega)]
    | fuel + 1 =>
      unfold genSlotsAux
      split
      case isTrue h =>
        simp only [List.getElem?_cons_zero, Nat.zero_mul, Nat.add_zero]
        rw [if_pos h]
        rfl
      case isFalse h =>
        simp only [List.getElem?_nil]
        rw [if_neg (by omega)]
  | succ k ih =>
    intro cur fuel hfuel
    match fuel with
    | 0 =>
      unfold genSlotsAux
      simp only [List.getElem?_nil]
      rw [if_neg (by omega)]
    | fuel + 1 =>
      unfold genSlotsAux
      split
      case isTrue h =>
        simp only [List.getElem?_cons_succ]
        rw [ih (cur + step) fuel (by omega)]
        have harith : cur + step + k * step = cur + (k + 1) * step := by ring
        rw [harith]
      case isFalse h =>
        simp only [List.getElem?_nil]
        rw [if_neg (by omega)]

theorem genSlots_getElem? (s : Schedule) (bookings : List Booking) (check_date : YMDDate)
    (dur step : Nat) (hstep : 0 < step) (we : Nat) :
    ∀ (k cur : Nat),
      (genSlots s bookings check_date dur step cur we)[k]? =
        if cur + k * step + dur ≤ we then
          some (mkSlot s bookings check_date dur (cur + k * step))
        else none := by
  intro k cur
  exact genSlotsAux_getElem? s bookings check_date dur step hstep we k cur (we + 1) (by omega)

theorem genSlots_elem_start (s : Schedule) (bookings : List Booking) (check_date : YMDDate)
    (dur step : Nat) (hstep : 0 < step) {we : Nat} (hwe : we < 1440) {cur k : Nat}
    (hk : k < (genSlots s bookings check_date dur step cur we).length) :
    (genSlots s bookings check_date dur step cur we)[k] =
      mkSlot s bookings check_date dur (cur + k * step) ∧
      cur + k * step + dur ≤ we ∧
      slotMins ((genSlots s bookings check_date dur step cur we)[k]) = cur + k * step := by
  have h := genSlots_getElem? s bookings check_date dur step hstep we k cur
  rw [List.getElem?_eq_getElem hk] at h
  split at h
  case isTrue hle =>
    simp only [Option.some.injEq] at h
    refine ⟨h, hle, ?_⟩
    rw [h]
    unfold slotMins mkSlot
    simp only []
    rw [parseTime_renderTime (by omega)]
    rfl
  case isFalse => exact absurd h (by simp)

theorem genSlots_sorted (s : Schedule) (bookings : List Booking) (check_date : YMDDate)
    (dur step : Nat) (hstep : 0 < step) {we : Nat} (hwe : we < 1440) (cur : Nat) :
    List.Pairwise (fun a b => slotMins a < slotMins b)
      (genSlots s bookings check_date dur step cur we) := by
  rw [List.pairwise_iff_getElem]
  intro i j hi hj hij
  obtain ⟨-, -, hsi⟩ := genSlots_elem_start s bookings check_date dur step hstep hwe hi
  obtain ⟨-, -, hsj⟩ := genSlots_elem_start s bookings check_date dur step hstep hwe hj
  rw [hsi, hsj]
  have : i * step < j * step := by
    exact Nat.mul_lt_mul_of_lt_of_le hij (le_refl step) hstep
  omega

theorem not_bookingBlocks_iff {b : Booking} {dateStr : String} {s0 e0 bs be : Nat}
    (hbs : parseTime b.start_time = some bs) (hbe : parseTime b.end_time = some be) :
    ((!(bookingBlocks dateStr s0 e0 b)) = true) ↔
      (b.date = dateStr → b.status = "confirmed" → ¬ overlaps s0 e0 bs be) := by
  have hblocks : bookingBlocks dateStr s0 e0 b =
      (b.date == dateStr && b.status == "confirmed" &&
        !(decide (e0 ≤ bs) || decide (s0 ≥ be))) := by
    unfold bookingBlocks
    rw [hbs, hbe]
  rw [hblocks]
  unfold overlaps
  by_cases hd : b.date = dateStr
  · by_cases hst : b.status = "confirmed"
    · simp only [hd, hst, beq_self_eq_true, Bool.true_and, Bool.not_not,
        Bool.or_eq_true, decide_eq_true_eq, forall_const]
      constructor
      · intro h
        omega
      · intro h
        omega
    · have h2 : (b.status == "confirmed") = false := by simp [hst]
      simp [h2, hst]
  · have h2 : (b.date == dateStr) = false := by simp [hd]
    simp [h2, hd]

/-- Characterization of `_is_slot_available` under a well-formed schedule and
store: the slot is reported available iff it lies inside working hours, does
not overlap the lunch break, and does not overlap any confirmed booking on
the same (canonically rendered) date. -/
theorem isSlotAvailable_iff {s : Schedule} {bookings : List Booking}
    (hstore : StoreWF bookings)
    {check_date : YMDDate} {wh : WorkHours} {ws we ls le : Nat}
    (hwh : workingHoursFor s check_date = some wh)
    (hws : parseTime wh.start = some ws) (hwe : parseTime wh.stop = some we)
    (hls : parseTime (lunchBreak s).start = some ls)
    (hle : parseTime (lunchBreak s).stop = some le)
    (st dur : Nat) :
    _is_slot_available s bookings check_date st dur = true ↔
      (ws ≤ st ∧ st + dur ≤ we ∧ ¬ overlaps st (st + dur) ls le ∧
        ∀ b ∈ bookings, b.date = renderDate check_date → b.status = "confirmed" →
          ∀ bs be, parseTime b.start_time = some bs → parseTime b.end_time = some be →
            ¬ overlaps st (st + dur) bs be) := by
  unfold _is_slot_available
  rw [hwh]
  simp only []
  rw [hws, hwe]
  simp only []
  rw [hls, hle]
  simp only []
  split
  case isTrue hcond =>
    simp only [Bool.or_eq_true, decide_eq_true_eq] at hcond
    constructor
    · intro hft
      exact absurd hft (by simp)
    · rintro ⟨h1, h2, -, -⟩
      exfalso
      omega
  case isFalse hcond =>
    simp only [Bool.or_eq_true, decide_eq_true_eq, not_or, not_lt] at hcond
    split
    case isTrue hlun =>
      simp only [Bool.not_eq_true', Bool.or_eq_false_iff, decide_eq_false_iff_not,
        not_le] at hlun
      constructor
      · intro hft
        exact absurd hft (by simp)
      · rintro ⟨-, -, hno, -⟩
        exfalso
        exact hno (show overlaps st (st + dur) ls le from ⟨by omega, by omega⟩)
    case isFalse hlun =>
      have hlun2 : st + dur ≤ ls ∨ le ≤ st := by
        rcases Nat.lt_or_ge st le with hlt | hge
        · rcases Nat.lt_or_ge ls (st + dur) with hlt2 | hge2
          · exfalso
            apply hlun
            have hff : (decide (st + dur ≤ ls) || decide (st ≥ le)) = false := by
              simp only [Bool.or_eq_false_iff, decide_eq_false_iff_not]
              constructor <;> omega
            rw [hff]
            rfl
          · exact Or.inl hge2
        · exact Or.inr hge
      rw [List.all_eq_true]
      constructor
      · intro hall
        refine ⟨by omega, by omega, ?_, ?_⟩
        · unfold overlaps
          rcases hlun2 with h2 | h2 <;> omega
        · intro b hb hdate hstatus bs be hbs hbe
          have := (not_bookingBlocks_iff hbs hbe).mp (hall b hb)
          exact this hdate hstatus
      · rintro ⟨-, -, -, hbk⟩ b hb
        obtain ⟨⟨bs, hbs⟩, ⟨be, hbe⟩⟩ := hstore b hb
        rw [not_bookingBlocks_iff hbs hbe]
        intro hdate hstatus
        exact hbk b hb hdate hstatus bs be hbs hbe

theorem availability_none {s : Schedule} {bookings : List Booking} {today : YMDDate}
    {date_str atype : String} (h : parseDate date_str = none) :
    get_availability s bookings today date_str atype = ⟨date_str, []⟩ := by
  unfold get_availability
  rw [h]

theorem availability_past {s : Schedule} {bookings : List Booking} {today : YMDDate}
    {date_str atype : String} {d : YMDDate} (h : parseDate date_str = some d)
    (hpast : dateLt d today = true) :
    get_availability s bookings today date_str atype = ⟨date_str, []⟩ := by
  unfold get_availability
  rw [h]
  simp only [hpast, if_true]

theorem availability_nonworking {s : Schedule} {bookings : List Booking} {today : YMDDate}
    {date_str atype : String} {d : YMDDate} (h : parseDate date_str = some d)
    (hpast : dateLt d today = false) (hwh : workingHoursFor s d = none) :
    get_availability s bookings today date_str atype = ⟨date_str, []⟩ := by
  unfold get_availability
  rw [h]
  simp only [hpast, Bool.false_eq_true, if_false]
  rw [hwh]

theorem availability_grid {s : Schedule} {bookings : List Booking} {today : YMDDate}
    {date_str atype : String} {d : YMDDate} {wh : WorkHours} {ws we : Nat}
    (h : parseDate date_str = some d) (hpast : dateLt d today = false)
    (hwh : workingHoursFor s d = some wh) (hws : parseTime wh.start = some ws)
    (hwe : parseTime wh.stop = some we) :
    get_availability s bookings today date_str atype =
      ⟨date_str, genSlots s bookings d (getDuration atype) (slotStep s) ws we⟩ := by
  unfold get_availability
  rw [h]
  simp only [hpast, Bool.false_eq_true, if_false]
  rw [hwh]
  simp only []
  rw [hws, hwe]

/-- Any nonempty slot list comes from the grid branch. -/
theorem availability_cases {s : Schedule} {bookings : List Booking} {today : YMDDate}
    {date_str atype : String} (hwf : s.wf = true)
    (hne : (get_availability s bookings today date_str atype).available_slots ≠ []) :
    ∃ d wh ws we, parseDate date_str = some d ∧ dateLt d today = false ∧
      workingHoursFor s d = some wh ∧ parseTime wh.start = some ws ∧
      parseTime wh.stop = some we ∧
      (get_availability s bookings today date_str atype).available_slots =
        genSlots s bookings d (getDuration atype) (slotStep s) ws we := by
  rcases hps : parseDate date_str with _ | d
  · exact absurd (by rw [availability_none hps]) hne
  rcases hpast : dateLt d today with _ | _
  case true => exact absurd (by rw [availability_past hps hpast]) hne
  rcases hwh : workingHoursFor s d with _ | wh
  · exact absurd (by rw [availability_nonworking hps hpast hwh]) hne
  obtain ⟨⟨ws, hws⟩, ⟨we, hwe⟩⟩ := wf_workingHours hwf hwh
  exact ⟨d, wh, ws, we, rfl, hpast, hwh, hws, hwe, by rw [availability_grid hps hpast hwh hws hwe]⟩

/-- C4: `get_availability` returns an empty slot list for unparseable dates,
for dates strictly earlier than today, and for weekdays with no working-hours
entry; otherwise it returns the full candidate grid: the `k`-th emitted slot
starts at `workStart + k * slotGranularity`, exists exactly while
`start + duration ≤ workEnd`, and carries its computed `available` flag
(closed slots included). -/
theorem C4_availability_shape (s : Schedule) (bookings : List Booking) (today : YMDDate)
    (date_str atype : String) (hwf : s.wf = true) :
    (parseDate date_str = none →
      (get_availability s bookings today date_str atype).available_slots = []) ∧
    (∀ d, parseDate date_str = some d → dateLt d today = true →
      (get_availability s bookings today date_str atype).available_slots = []) ∧
    (∀ d, parseDate date_str = some d → dateLt d today = false →
      workingHoursFor s d = none →
      (get_availability s bookings today date_str atype).available_slots = []) ∧
    (∀ d wh ws we, parseDate date_str = some d → dateLt d today = false →
      workingHoursFor s d = some wh → parseTime wh.start = some ws →
      parseTime wh.stop = some we →
      ∀ k, (get_availability s bookings today date_str atype).available_slots[k]? =
        if ws + k * slotStep s + getDuration atype ≤ we then
          some (mkSlot s bookings d (getDuration atype) (ws + k * slotStep s))
        else none) := by
  refine ⟨?_, ?_, ?_, ?_⟩
  · intro h
    rw [availability_none h]
  · intro d h hpast
    rw [availability_past h hpast]
  · intro d h hpast hwh
    rw [availability_nonworking h hpast hwh]
  · intro d wh ws we h hpast hwh hws hwe k
    rw [availability_grid h hpast hwh hws hwe]
    exact genSlots_getElem? s bookings d (getDuration atype) (slotStep s) (wf_step hwf) we k ws

/-- Witness for C4 at the concrete schedule: a malformed date, a past date and
a non-working Sunday give empty lists, and on Monday 2025-10-13 the grid's
first slot is 09:00-09:30, open. -/
theorem C4_witness :
    (get_availability demoSchedule [] demoToday "2025-13-40" "consultation").available_slots
        = [] ∧
    (get_availability demoSchedule [] demoToday "2025-10-11" "consultation").available_slots
        = [] ∧
    (get_availability demoSchedule [] demoToday "2025-10-12" "consultation").available_slots
        = [] ∧
    (get_availability demoSchedule [] demoToday "2025-10-13" "consultation").available_slots[0]?
        = some ⟨"09:00", "09:30", true⟩ := by
  refine ⟨?_, ?_, ?_, ?_⟩
  · exact (C4_availability_shape demoSchedule [] demoToday "2025-13-40" "consultation"
      (by decide)).1 (by decide)
  · exact (C4_availability_shape demoSchedule [] demoToday "2025-10-11" "consultation"
      (by decide)).2.1 ⟨2025, 10, 11⟩ (by decide) (by decide)
  · exact (C4_availability_shape demoSchedule [] demoToday "2025-10-12" "consultation"
      (by decide)).2.2.1 ⟨2025, 10, 12⟩ (by decide) (by decide) (by decide)
  · have h := (C4_availability_shape demoSchedule [] demoToday "2025-10-13" "consultation"
      (by decide)).2.2.2 ⟨2025, 10, 13⟩ ⟨"09:00", "17:00"⟩ 540 1020 (by decide) (by decide)
      (by decide) (by decide) (by decide) 0
    rw [h]
    decide

/-- C2: every slot emitted by `get_availability` with `available = true` lies
fully inside that day's working hours, does not intersect the lunch break,
and does not overlap any confirmed booking on that date, where overlap of
half-open intervals is the strict rule `a0 < b1 AND b0 < a1` (so a slot
touching a confirmed booking's end, or the lunch end, can still be
available). -/
theorem C2_slot_soundness {s : Schedule} {bookings : List Booking} {today : YMDDate}
    {date_str atype : String} (hwf : s.wf = true) (hstore : StoreWF bookings)
    {sl : Slot}
    (hmem : sl ∈ (get_availability s bookings today date_str atype).available_slots)
    (hav : sl.available = true) :
    ∃ d st, parseDate date_str = some d ∧
      parseTime sl.start_time = some st ∧
      parseTime sl.end_time = some (st + getDuration atype) ∧
      ∃ wh ws we, workingHoursFor s d = some wh ∧ parseTime wh.start = some ws ∧
        parseTime wh.stop = some we ∧
        ws ≤ st ∧ st + getDuration atype ≤ we ∧
        (∀ ls le, parseTime (lunchBreak s).start = some ls →
          parseTime (lunchBreak s).stop = some le →
            ¬ overlaps st (st + getDuration atype) ls le) ∧
        ∀ b ∈ bookings, b.date = renderDate d → b.status = "confirmed" →
          ∀ bs be, parseTime b.start_time = some bs → parseTime b.end_time = some be →
            ¬ overlaps st (st + getDuration atype) bs be := by
  obtain ⟨d, wh, ws, we, hps, hpast, hwh, hws, hwe, heq⟩ :=
    availability_cases hwf (List.ne_nil_of_mem hmem)
  rw [heq] at hmem
  obtain ⟨k, hk, hkeq⟩ := List.mem_iff_getElem.mp hmem
  have hwe1440 : we < 1440 := parseTime_lt hwe
  obtain ⟨helem, hle, -⟩ :=
    genSlots_elem_start s bookings d (getDuration atype) (slotStep s) (wf_step hwf)
      hwe1440 hk
  rw [helem] at hkeq
  subst hkeq
  set st := ws + k * slotStep s with hst
  have hstart : parseTime (mkSlot s bookings d (getDuration atype) st).start_time
      = some st := by
    unfold mkSlot
    exact parseTime_renderTime (by omega)
  have hend : parseTime (mkSlot s bookings d (getDuration atype) st).end_time
      = some (st + getDuration atype) := by
    unfold mkSlot
    exact parseTime_renderTime (by omega)
  have havail : _is_slot_available s bookings d st (getDuration atype) = true := hav
  obtain ⟨⟨ls, hls⟩, ⟨le, hle2⟩⟩ := wf_lunch hwf
  obtain ⟨hb1, hb2, hb3, hb4⟩ :=
    (isSlotAvailable_iff hstore hwh hws hwe hls hle2 st (getDuration atype)).mp havail
  refine ⟨d, st, hps, hstart, hend, wh, ws, we, hwh, hws, hwe, hb1, hb2, ?_, hb4⟩
  intro ls2 le2 hls2 hle22
  rw [hls2] at hls
  rw [hle22] at hle2
  cases hls
  cases hle2
  exact hb3

/-- Witness for C2: the 09:00 slot of Monday 2025-10-13 is available on the
concrete schedule, and the theorem yields its soundness facts. -/
theorem C2_witness :
    ∃ sl, sl ∈ (get_availability demoSchedule [] demoToday
        "2025-10-13" "consultation").available_slots ∧
      sl.available = true ∧
      ∃ d st, parseDate "2025-10-13" = some d ∧
        parseTime sl.start_time = some st ∧
        parseTime sl.end_time = some (st + getDuration "consultation") ∧
        ∃ wh ws we, workingHoursFor demoSchedule d = some wh ∧
          parseTime wh.start = some ws ∧ parseTime wh.stop = some we ∧
          ws ≤ st ∧ st + getDuration "consultation" ≤ we ∧
          (∀ ls le, parseTime (lunchBreak demoSchedule).start = some ls →
            parseTime (lunchBreak demoSchedule).stop = some le →
              ¬ overlaps st (st + getDuration "consultation") ls le) ∧
          ∀ b ∈ ([] : List Booking), b.date = renderDate d → b.status = "confirmed" →
            ∀ bs be, parseTime b.start_time = some bs → parseTime b.end_time = some be →
              ¬ overlaps st (st + getDuration "consultation") bs be := by
  have hm : (⟨"09:00", "09:30", true⟩ : Slot) ∈ (get_availability demoSchedule [] demoToday
      "2025-10-13" "consultation").available_slots := by decide
  exact ⟨⟨"09:00", "09:30", true⟩, hm, rfl,
    C2_slot_soundness (by decide) (by intro b hb; cases hb) hm rfl⟩

/-- C5 (corrected): `get_available_slots_only` keeps only available slots and
filters morning/afternoon/evening to start hour in [6,12), [12,17), [17,22);
an absent (or empty, hence Python-falsy) preference applies no filtering; but
an unrecognized non-empty preference matches no slot and yields `[]`, not the
unfiltered available slots. -/
theorem C5_preference_filtering (s : Schedule) (bookings : List Booking) (today : YMDDate)
    (date_str atype : String) :
    (get_available_slots_only s bookings today date_str atype none =
      (get_availability s bookings today date_str atype).available_slots.filter
        (·.available)) ∧
    (get_available_slots_only s bookings today date_str atype (some "") =
      (get_availability s bookings today date_str atype).available_slots.filter
        (·.available)) ∧
    (get_available_slots_only s bookings today date_str atype (some "morning") =
      ((get_availability s bookings today date_str atype).available_slots.filter
        (·.available)).filter
          (fun sl => decide (6 ≤ slotStartHour sl ∧ slotStartHour sl < 12))) ∧
    (get_available_slots_only s bookings today date_str atype (some "afternoon") =
      ((get_availability s bookings today date_str atype).available_slots.filter
        (·.available)).filter
          (fun sl => decide (12 ≤ slotStartHour sl ∧ slotStartHour sl < 17))) ∧
    (get_available_slots_only s bookings today date_str atype (some "evening") =
      ((get_availability s bookings today date_str atype).available_slots.filter
        (·.available)).filter
          (fun sl => decide (17 ≤ slotStartHour sl ∧ slotStartHour sl < 22))) ∧
    (∀ p : String, p ≠ "" → p ≠ "morning" → p ≠ "afternoon" → p ≠ "evening" →
      get_available_slots_only s bookings today date_str atype (some p) = []) := by
  unfold get_available_slots_only
  simp only [Option.getD]
  refine ⟨?_, ?_, ?_, ?_, ?_, ?_⟩
  · rw [if_neg (by simp)]
  · rw [if_neg (by simp)]
  · rcases hav : (get_availability s bookings today date_str atype).available_slots.filter
        (·.available) with _ | ⟨a, rest⟩
    · rw [if_neg (by simp [hav])]
      simp [hav]
    · rw [if_pos ⟨by simp, by simp [hav]⟩]
      rw [hav]
      apply List.filter_congr
      intro sl hsl
      simp only [decide_eq_decide]
      constructor
      · rintro (⟨-, h⟩ | ⟨hp, -⟩ | ⟨hp, -⟩) <;> first | exact h | simp at hp
      · intro h
        exact Or.inl ⟨trivial, h⟩
  · rcases hav : (get_availability s bookings today date_str atype).available_slots.filter
        (·.available) with _ | ⟨a, rest⟩
    · rw [if_neg (by simp [hav])]
      simp [hav]
    · rw [if_pos ⟨by simp, by simp [hav]⟩]
      rw [hav]
      apply List.filter_congr
      intro sl hsl
      simp only [decide_eq_decide]
      constructor
      · rintro (⟨hp, -⟩ | ⟨-, h⟩ | ⟨hp, -⟩) <;> first | exact h | simp at hp
      · intro h
        exact Or.inr (Or.inl ⟨trivial, h⟩)
  · rcases hav : (get_availability s bookings today date_str atype).available_slots.filter
        (·.available) with _ | ⟨a, rest⟩
    · rw [if_neg (by simp [hav])]
      simp [hav]
    · rw [if_pos ⟨by simp, by simp [hav]⟩]
      rw [hav]
      apply List.filter_congr
      intro sl hsl
      simp only [decide_eq_decide]
      constructor
      · rintro (⟨hp, -⟩ | ⟨hp, -⟩ | ⟨-, h⟩) <;> first | exact h | simp at hp
      · intro h
        exact Or.inr (Or.inr ⟨trivial, h⟩)
  · intro p hp hm ha he
    rcases hav : (get_availability s bookings today date_str atype).available_slots.filter
        (·.available) with _ | ⟨a, rest⟩
    · rw [if_neg (by simp [hav])]
      exact hav
    · rw [if_pos ⟨by simpa using hp, by simp [hav]⟩]
      rw [hav]
      apply List.filter_eq_nil.mpr
      intro sl hsl
      simp only [decide_eq_true_eq]
      rintro (⟨hpe, -⟩ | ⟨hpe, -⟩ | ⟨hpe, -⟩)
      · exact hm hpe
      · exact ha hpe
      · exact he hpe

/-- Counterexample for C5 as stated: on the concrete schedule the unrecognized
preference "night" yields the empty list even though available slots exist,
so an unrecognized preference does not return the unfiltered available
slots. -/
theorem C5_counterexample :
    get_available_slots_only demoSchedule [] demoToday "2025-10-13" "consultation"
        (some "night") = [] ∧
    get_available_slots_only demoSchedule [] demoToday "2025-10-13" "consultation"
        none ≠ [] := by
  constructor
  · decide
  · decide

/-- C3: `book_appointment` always returns a result value (the embedding is a
total function), its status is either "failed" or "confirmed", a failure
leaves the booking store exactly as it was (the store is only written in the
success branch, where `_save_booking` also persists it), and failure happens
precisely on an unparseable date/time or on a slot that re-validates as
unavailable. -/
theorem C3_failure_is_value (s : Schedule) (bookings : List Booking)
    (atype date_str start_time : String) (patient : Patient) (reason bid code created : String) :
    ((book_appointment s bookings atype date_str start_time patient reason
        bid code created).1.status = "failed" →
      (book_appointment s bookings atype date_str start_time patient reason
        bid code created).2 = bookings) ∧
    ((book_appointment s bookings atype date_str start_time patient reason
        bid code created).1.status = "failed" ∨
      (book_appointment s bookings atype date_str start_time patient reason
        bid code created).1.status = "confirmed") ∧
    ((book_appointment s bookings atype date_str start_time patient reason
        bid code created).1.status = "failed" ↔
      (parseDate date_str = none ∨ parseTime start_time = none ∨
        ∃ d st, parseDate date_str = some d ∧ parseTime start_time = some st ∧
          _is_slot_available s bookings d st (getDuration atype) = false)) := by
  unfold book_appointment
  rcases hpd : parseDate date_str with _ | d
  · simp
  rcases hpt : parseTime start_time with _ | st
  · simp
  rcases hav : _is_slot_available s bookings d st (getDuration atype) with _ | _
  · simp [hav]
  · simp [hav]

/-- Shape of a successful `book_appointment` call: the parses succeeded, the
slot re-validated as available, and the store grew by exactly the new
confirmed record. -/
theorem book_success {s : Schedule} {bookings : List Booking}
    {atype date_str start_time : String} {patient : Patient}
    {reason bid code created : String} {res : BookResult} {bs2 : List Booking}
    (h : book_appointment s bookings atype date_str start_time patient reason
      bid code created = (res, bs2))
    (hc : res.status = "confirmed") :
    ∃ d st, parseDate date_str = some d ∧ parseTime start_time = some st ∧
      _is_slot_available s bookings d st (getDuration atype) = true ∧
      res = { booking_id := some bid, status := "confirmed",
              confirmation_code := some code, error := none } ∧
      bs2 = bookings ++
        [{ booking_id := bid, date := date_str, start_time := start_time,
           end_time := renderTime (st + getDuration atype), btype := atype,
           patient_name := patient.name, patient_email := patient.email,
           patient_phone := patient.phone, reason := reason,
           status := "confirmed", confirmation_code := code,
           created_at := created }] := by
  unfold book_appointment at h
  split at h
  case h_2 =>
    injection h with h1 h2
    subst h1
    exact absurd hc (by decide)
  case h_1 d st hpd hpt =>
    dsimp only [] at h
    split at h
    case isTrue hav =>
      injection h with h1 h2
      subst h1
      subst h2
      exact ⟨d, st, hpd, hpt, hav, rfl, rfl⟩
    case isFalse hav =>
      injection h with h1 h2
      subst h1
      exact absurd hc (by decide)

/-- A slot that `_is_slot_available` accepts ends within the working day, so
its end minute is below 24*60. -/
theorem isSlotAvailable_bound {s : Schedule} {bookings : List Booking} {d : YMDDate}
    {st dur : Nat} (hwf : s.wf = true)
    (hav : _is_slot_available s bookings d st dur = true) : st + dur < 1440 := by
  unfold _is_slot_available at hav
  split at hav
  case h_1 => exact absurd hav (by decide)
  case h_2 wh hwh =>
    split at hav
    case h_2 => exact absurd hav (by decide)
    case h_1 ws we hws hwe =>
      split at hav
      case isTrue => exact absurd hav (by decide)
      case isFalse hcond =>
        simp only [Bool.or_eq_true, decide_eq_true_eq, not_or, not_lt] at hcond
        have := parseTime_lt hwe
        omega

/-- C9: a type tag absent from `appointment_durations` falls back to the
default 30-minute duration in both `get_availability` (every emitted slot
spans start..start+30) and `book_appointment`; and every booking a successful
`book_appointment` creates has end time = start time + duration of its type,
in minutes since midnight. -/
theorem C9_duration_policy (s : Schedule) (bookings : List Booking) (today : YMDDate)
    (date_str atype start_time : String) (patient : Patient)
    (reason bid code created : String) (hwf : s.wf = true) :
    (appointment_durations atype = none → getDuration atype = 30) ∧
    (appointment_durations atype = none →
      ∀ sl ∈ (get_availability s bookings today date_str atype).available_slots,
        ∃ st, parseTime sl.start_time = some st ∧
          parseTime sl.end_time = some (st + 30)) ∧
    (∀ res bs2, book_appointment s bookings atype date_str start_time patient reason
        bid code created = (res, bs2) →
      res.status = "confirmed" →
      ∃ st b, parseTime start_time = some st ∧ bs2 = bookings ++ [b] ∧
        b.start_time = start_time ∧ b.btype = atype ∧
        parseTime b.end_time = some (st + getDuration atype)) := by
  refine ⟨?_, ?_, ?_⟩
  · intro h
    unfold getDuration
    rw [h]
    rfl
  · intro hnone sl hmem
    obtain ⟨d, wh, ws, we, hps, hpast, hwh, hws, hwe, heq⟩ :=
      availability_cases hwf (List.ne_nil_of_mem hmem)
    rw [heq] at hmem
    obtain ⟨k, hk, hkeq⟩ := List.mem_iff_getElem.mp hmem
    have hwe1440 : we < 1440 := parseTime_lt hwe
    obtain ⟨helem, hle, -⟩ :=
      genSlots_elem_start s bookings d (getDuration atype) (slotStep s) (wf_step hwf)
        hwe1440 hk
    rw [helem] at hkeq
    have hd30 : getDuration atype = 30 := by
      unfold getDuration
      rw [hnone]
      rfl
    refine ⟨ws + k * slotStep s, ?_, ?_⟩
    · rw [← hkeq]
      unfold mkSlot
      exact parseTime_renderTime (by omega)
    · rw [← hkeq]
      unfold mkSlot
      rw [← hd30]
      exact parseTime_renderTime (by omega)
  · intro res bs2 h hc
    obtain ⟨d, st, hpd, hpt, hav, hres, hbs⟩ := book_success h hc
    refine ⟨st, _, hpt, hbs, rfl, rfl, ?_⟩
    exact parseTime_renderTime (isSlotAvailable_bound hwf hav)

/-- Witness for C9: "checkup" is not a configured type, gets the 30-minute
default, and a booking made with it ends 30 minutes after its start. -/
theorem C9_witness :
    getDuration "checkup" = 30 ∧
    ∃ st b, parseTime "10:00" = some st ∧
      (book_appointment demoSchedule [] "checkup" "2025-10-13" "10:00" demoPatient
        "annual checkup" "APPT-20251012-AAAAAA" "CODE1234" "2025-10-12T09:00:00").2 =
        [] ++ [b] ∧
      b.start_time = "10:00" ∧ b.btype = "checkup" ∧
      parseTime b.end_time = some (st + getDuration "checkup") := by
  have h := C9_duration_policy demoSchedule [] demoToday "2025-10-13" "checkup" "10:00"
    demoPatient "annual checkup" "APPT-20251012-AAAAAA" "CODE1234" "2025-10-12T09:00:00"
    (by decide)
  exact ⟨h.1 rfl, h.2.2 _ _ rfl (by decide)⟩

theorem find?_bookings_append {p : Booking → Bool} {l1 l2 : List Booking}
    (h : ∀ x ∈ l1, p x = false) : List.find? p (l1 ++ l2) = List.find? p l2 := by
  induction l1 with
  | nil => rfl
  | cons a l ih =>
    rw [List.cons_append, List.find?_cons_of_neg]
    · exact ih fun x hx => h x (List.mem_cons_of_mem a hx)
    · simp [h a (List.mem_cons_self a l)]

/-- C8: after a `book_appointment` call returns status "confirmed" carrying a
(fresh) booking id, `get_booking` on that id returns the stored record, which
is confirmed and matches the booked date, start time, end time and patient
fields. -/
theorem C8_roundtrip {s : Schedule} {bookings : List Booking}
    {atype date_str start_time : String} {patient : Patient}
    {reason bid code created : String} {res : BookResult} {bs2 : List Booking}
    (h : book_appointment s bookings atype date_str start_time patient reason
      bid code created = (res, bs2))
    (hc : res.status = "confirmed")
    (hfresh : ∀ b ∈ bookings, b.booking_id ≠ bid) :
    res.booking_id = some bid ∧
    ∃ b, get_booking bs2 bid = some b ∧ b.status = "confirmed" ∧
      b.date = date_str ∧ b.start_time = start_time ∧
      b.patient_name = patient.name ∧ b.patient_email = patient.email ∧
      b.patient_phone = patient.phone ∧
      ∃ st, parseTime start_time = some st ∧
        b.end_time = renderTime (st + getDuration atype) := by
  obtain ⟨d, st, hpd, hpt, hav, hres, hbs⟩ := book_success h hc
  subst hbs
  constructor
  · rw [hres]
  · have hfind : get_booking (bookings ++
        [{ booking_id := bid, date := date_str, start_time := start_time,
           end_time := renderTime (st + getDuration atype), btype := atype,
           patient_name := patient.name, patient_email := patient.email,
           patient_phone := patient.phone, reason := reason,
           status := "confirmed", confirmation_code := code,
           created_at := created }]) bid =
        some { booking_id := bid, date := date_str, start_time := start_time,
               end_time := renderTime (st + getDuration atype), btype := atype,
               patient_name := patient.name, patient_email := patient.email,
               patient_phone := patient.phone, reason := reason,
               status := "confirmed", confirmation_code := code,
               created_at := created } := by
      unfold get_booking
      rw [find?_bookings_append]
      · simp
      · intro x hx
        simp [hfresh x hx]
    exact ⟨_, hfind, rfl, rfl, rfl, rfl, rfl, rfl, st, hpt, rfl⟩

/-- Witness for C8: book the Monday 10:00 consultation on the empty store and
read it back by id. -/
theorem C8_witness :
    ∃ res bs2, book_appointment demoSchedule [] "consultation" "2025-10-13" "10:00"
        demoPatient "sore throat" "APPT-20251012-BBBBBB" "CODE5678"
        "2025-10-12T09:00:00" = (res, bs2) ∧
      res.status = "confirmed" ∧
      res.booking_id = some "APPT-20251012-BBBBBB" ∧
      ∃ b, get_booking bs2 "APPT-20251012-BBBBBB" = some b ∧ b.status = "confirmed" ∧
        b.date = "2025-10-13" ∧ b.start_time = "10:00" ∧
        b.patient_name = demoPatient.name ∧ b.patient_email = demoPatient.email ∧
        b.patient_phone = demoPatient.phone ∧
        ∃ st, parseTime "10:00" = some st ∧
          b.end_time = renderTime (st + getDuration "consultation") := by
  have heq : book_appointment demoSchedule [] "consultation" "2025-10-13" "10:00"
      demoPatient "sore throat" "APPT-20251012-BBBBBB" "CODE5678"
      "2025-10-12T09:00:00" =
      (⟨some "APPT-20251012-BBBBBB", "confirmed", some "CODE5678", none⟩,
       [⟨"APPT-20251012-BBBBBB", "2025-10-13", "10:00", "10:30", "consultation",
         demoPatient.name, demoPatient.email, demoPatient.phone, "sore throat",
         "confirmed", "CODE5678", "2025-10-12T09:00:00"⟩]) := by decide
  have h := C8_roundtrip heq rfl (fun b hb => absurd hb (List.not_mem_nil b))
  exact ⟨_, _, heq, rfl, h.1, h.2⟩

theorem cancel_not_found {bookings : List Booking} {bid : String}
    (h : (cancel_booking bookings bid).1 = false) :
    (cancel_booking bookings bid).2 = bookings ∧ ∀ b ∈ bookings, b.booking_id ≠ bid := by
  induction bookings with
  | nil => exact ⟨rfl, by intro b hb; cases hb⟩
  | cons a l ih =>
    unfold cancel_booking at h ⊢
    by_cases hid : a.booking_id = bid
    · rw [if_pos (by simp [hid])] at h
      simp at h
    · rw [if_neg (by simp [hid])] at h ⊢
      dsimp only [] at h ⊢
      obtain ⟨h1, h2⟩ := ih h
      refine ⟨by rw [h1], ?_⟩
      intro b hb
      rcases List.mem_cons.mp hb with hb | hb
      · rw [hb]; exact hid
      · exact h2 b hb

theorem cancel_found {bookings : List Booking} {bid : String}
    (h : (cancel_booking bookings bid).1 = true) :
    ∃ pre b post, bookings = pre ++ b :: post ∧ b.booking_id = bid ∧
      (∀ x ∈ pre, x.booking_id ≠ bid) ∧
      (cancel_booking bookings bid).2 =
        (pre ++ { b with status := "cancelled" } :: post) ++
          [{ b with status := "cancelled" }] := by
  induction bookings with
  | nil => simp [cancel_booking] at h
  | cons a l ih =>
    unfold cancel_booking at h ⊢
    by_cases hid : a.booking_id = bid
    · rw [if_pos (by simp [hid])] at h ⊢
      dsimp only []
      refine ⟨[], a, l, rfl, hid, ?_, ?_⟩
      · intro x hx
        cases hx
      · simp
    · rw [if_neg (by simp [hid])] at h ⊢
      dsimp only [] at h ⊢
      obtain ⟨pre, b, post, he, hb, hpre, hres⟩ := ih h
      refine ⟨a :: pre, b, post, by rw [he]; simp, hb, ?_, ?_⟩
      · intro x hx
        rcases List.mem_cons.mp hx with hx | hx
        · rw [hx]; exact hid
        · exact hpre x hx
      · rw [hres]
        simp

theorem cancel_true_iff {bookings : List Booking} {bid : String} :
    (cancel_booking bookings bid).1 = true ↔ ∃ b ∈ bookings, b.booking_id = bid := by
  constructor
  · intro h
    obtain ⟨pre, b, post, he, hb, -, -⟩ := cancel_found h
    exact ⟨b, by rw [he]; simp, hb⟩
  · intro ⟨b, hmem, hb⟩
    rcases hr : (cancel_booking bookings bid).1 with _ | _
    · obtain ⟨-, hnone⟩ := cancel_not_found hr
      exact absurd hb (hnone b hmem)
    · rfl

/-- C10: a successful `cancel_booking` marks the first matching record
cancelled in place and, via `_save_booking`, appends that same cancelled
record once more: the store grows by exactly one entry, nothing is removed,
and the appended entry duplicates the cancelled one. -/
theorem C10_cancel_appends (bookings : List Booking) (bid : String) :
    ((cancel_booking bookings bid).1 = true ↔ ∃ b ∈ bookings, b.booking_id = bid) ∧
    ((cancel_booking bookings bid).1 = false →
      (cancel_booking bookings bid).2 = bookings) ∧
    ((cancel_booking bookings bid).1 = true →
      (cancel_booking bookings bid).2.length = bookings.length + 1 ∧
      ∃ pre b post, bookings = pre ++ b :: post ∧ b.booking_id = bid ∧
        (∀ x ∈ pre, x.booking_id ≠ bid) ∧
        (cancel_booking bookings bid).2 =
          (pre ++ { b with status := "cancelled" } :: post) ++
            [{ b with status := "cancelled" }]) := by
  refine ⟨cancel_true_iff, fun h => (cancel_not_found h).1, fun h => ⟨?_, cancel_found h⟩⟩
  obtain ⟨pre, b, post, he, -, -, hres⟩ := cancel_found h
  rw [hres, he]
  simp
  omega

theorem appointment_durations_pos {t : String} {v : Nat}
    (h : appointment_durations t = some v) : 0 < v := by
  unfold appointment_durations at h
  split at h <;> first
    | (injection h with h2; omega)
    | exact absurd h (by simp)

theorem getDuration_pos (t : String) : 0 < getDuration t := by
  unfold getDuration
  rcases h : appointment_durations t with _ | v
  · simp
  · simpa using appointment_durations_pos h

/-- If `_is_slot_available` accepts a slot, no stored booking blocks it. -/
theorem isSlotAvailable_noBlock {s : Schedule} {bookings : List Booking} {d : YMDDate}
    {st dur : Nat} (hav : _is_slot_available s bookings d st dur = true) :
    ∀ b ∈ bookings, bookingBlocks (renderDate d) st (st + dur) b = false := by
  unfold _is_slot_available at hav
  split at hav
  case h_1 => exact absurd hav (by decide)
  case h_2 wh hwh =>
    split at hav
    case h_2 => exact absurd hav (by decide)
    case h_1 ws we hws hwe =>
      split at hav
      case isTrue => exact absurd hav (by decide)
      case isFalse hcond =>
        split at hav
        case h_2 => exact absurd hav (by decide)
        case h_1 ls le hls hle =>
          split at hav
          case isTrue => exact absurd hav (by decide)
          case isFalse hlun =>
            rw [List.all_eq_true] at hav
            intro b hb
            have := hav b hb
            simp only [Bool.not_eq_true'] at this
            exact this

/-- If the parses succeed but the slot re-validates as unavailable, the
booking result is a failure. -/
theorem book_result_failed {s : Schedule} {bookings : List Booking}
    {atype date_str start_time : String} {patient : Patient}
    {reason bid code created : String} {d : YMDDate} {st : Nat}
    (hpd : parseDate date_str = some d) (hpt : parseTime start_time = some st)
    (hav : _is_slot_available s bookings d st (getDuration atype) = false) :
    (book_appointment s bookings atype date_str start_time patient reason
      bid code created).1.status = "failed" := by
  unfold book_appointment
  rw [hpd, hpt]
  simp only []
  rw [hav]
  rw [if_neg (by decide)]

theorem noConflict_left {b1 b2 : Booking} (h : b1.status = "cancelled") :
    noConflict b1 b2 := by
  intro hd hc1 hc2
  rw [h] at hc1
  exact absurd hc1 (by decide)

theorem noConflict_right {b1 b2 : Booking} (h : b2.status = "cancelled") :
    noConflict b1 b2 := by
  intro hd hc1 hc2
  rw [h] at hc2
  exact absurd hc2 (by decide)

/-- Booking preserves the store invariant and its well-formedness. -/
theorem book_preserves {s : Schedule} (hwf : s.wf = true) {bookings : List Booking}
    (hOK : StoreOK bookings) (hWF : StoreWF bookings)
    (atype date_str start_time : String) (patient : Patient)
    (reason bid code created : String) :
    StoreOK (book_appointment s bookings atype date_str start_time patient reason
      bid code created).2 ∧
    StoreWF (book_appointment s bookings atype date_str start_time patient reason
      bid code created).2 := by
  unfold book_appointment
  split
  case h_2 => exact ⟨hOK, hWF⟩
  case h_1 d st hpd hpt =>
    dsimp only []
    split
    case isFalse => exact ⟨hOK, hWF⟩
    case isTrue hav =>
      have hbound : st + getDuration atype < 1440 := isSlotAvailable_bound hwf hav
      constructor
      · show List.Pairwise noConflict _
        rw [List.pairwise_append]
        refine ⟨hOK, List.pairwise_singleton _ _, ?_⟩
        intro a ha bk hbk
        rw [List.mem_singleton] at hbk
        subst hbk
        intro hdate hsa hsb s1 e1 s2 e2 hs1 he1 hs2 he2
        have hnb := isSlotAvailable_noBlock hav a ha
        unfold bookingBlocks at hnb
        have hds : renderDate d = date_str := renderDate_parseDate hpd
        have hadate : (a.date == renderDate d) = true := by
          rw [hds]
          simp only [beq_iff_eq]
          exact hdate
        have hastat : (a.status == "confirmed") = true := by
          simp only [beq_iff_eq]
          exact hsa
        rw [hadate, hastat, hs1, he1] at hnb
        simp only [Bool.true_and, Bool.not_eq_false', Bool.or_eq_true,
          decide_eq_true_eq] at hnb
        have hst2 : s2 = st := by
          rw [hpt] at hs2
          injection hs2 with h2
          omega
        have het2 : e2 = st + getDuration atype := by
          rw [parseTime_renderTime hbound] at he2
          injection he2 with h2
          omega
        subst hst2
        subst het2
        unfold overlaps
        omega
      · intro bk hbk
        rcases List.mem_append.mp hbk with hb | hb
        · exact hWF bk hb
        · rw [List.mem_singleton] at hb
          subst hb
          exact ⟨⟨st, hpt⟩, ⟨st + getDuration atype, parseTime_renderTime hbound⟩⟩

/-- Cancelling preserves the store invariant and its well-formedness. -/
theorem cancel_preserves {bookings : List Booking} (hOK : StoreOK bookings)
    (hWF : StoreWF bookings) (bid : String) :
    StoreOK (cancel_booking bookings bid).2 ∧ StoreWF (cancel_booking bookings bid).2 := by
  rcases hr : (cancel_booking bookings bid).1 with _ | _
  · obtain ⟨heq, -⟩ := cancel_not_found hr
    rw [heq]
    exact ⟨hOK, hWF⟩
  · obtain ⟨pre, b, post, he, hb, hpre, hres⟩ := cancel_found hr
    subst he
    rw [hres]
    constructor
    · show List.Pairwise noConflict _
      rw [List.pairwise_append]
      refine ⟨?_, List.pairwise_singleton _ _, ?_⟩
      · unfold StoreOK at hOK
        rw [List.pairwise_append] at hOK ⊢
        obtain ⟨h1, h2, h3⟩ := hOK
        rw [List.pairwise_cons] at h2 ⊢
        refine ⟨h1, ⟨?_, h2.2⟩, ?_⟩
        · intro x hx
          exact noConflict_left rfl
        · intro a ha y hy
          rcases List.mem_cons.mp hy with hy | hy
          · subst hy
            exact noConflict_right rfl
          · exact h3 a ha y (List.mem_cons_of_mem b hy)
      · intro a ha y hy
        rw [List.mem_singleton] at hy
        subst hy
        exact noConflict_right rfl
    · intro x hx
      rcases List.mem_append.mp hx with hx | hx
      · rcases List.mem_append.mp hx with hx | hx
        · exact hWF x (by simp [hx])
        · rcases List.mem_cons.mp hx with hx | hx
          · subst hx
            exact hWF b (by simp)
          · exact hWF x (by simp [hx])
      · rw [List.mem_singleton] at hx
        subst hx
        exact hWF b (by simp)

/-- Successful booking, with the appended record abstracted by its fields. -/
theorem book_success_fields {s : Schedule} {bookings : List Booking}
    {atype date_str start_time : String} {patient : Patient}
    {reason bid code created : String} {res : BookResult} {bs2 : List Booking}
    (h : book_appointment s bookings atype date_str start_time patient reason
      bid code created = (res, bs2))
    (hc : res.status = "confirmed") :
    ∃ d st bk, parseDate date_str = some d ∧ parseTime start_time = some st ∧
      _is_slot_available s bookings d st (getDuration atype) = true ∧
      bs2 = bookings ++ [bk] ∧ bk.date = date_str ∧ bk.start_time = start_time ∧
      bk.end_time = renderTime (st + getDuration atype) ∧ bk.status = "confirmed" := by
  obtain ⟨d, st, hpd, hpt, hav, hres, hbs⟩ := book_success h hc
  exact ⟨d, st, _, hpd, hpt, hav, hbs, rfl, rfl, rfl, rfl⟩

theorem applyOps_preserves {s : Schedule} (hwf : s.wf = true) :
    ∀ (ops : List Op) (bookings : List Booking), StoreOK bookings → StoreWF bookings →
      StoreOK (applyOps s ops bookings) ∧ StoreWF (applyOps s ops bookings)
  | [], bookings, hOK, hWF => ⟨hOK, hWF⟩
  | op :: ops, bookings, hOK, hWF => by
    have hstep : StoreOK (applyOp s bookings op) ∧ StoreWF (applyOp s bookings op) := by
      cases op with
      | bookOp atype ds st patient reason bid code created =>
        exact book_preserves hwf hOK hWF atype ds st patient reason bid code created
      | cancelOp bid => exact cancel_preserves hOK hWF bid
    exact applyOps_preserves hwf ops (applyOp s bookings op) hstep.1 hstep.2

/-- C1: starting from a well-formed store whose confirmed bookings are
pairwise non-overlapping per date, every sequence of book/cancel operations
preserves that invariant; and whenever a `book_appointment` call returns
"confirmed", a second sequential call with the same date, appointment type
and start time returns "failed". -/
theorem C1_no_double_booking (s : Schedule) (bookings : List Booking)
    (hwf : s.wf = true) (hOK : StoreOK bookings) (hWF : StoreWF bookings) :
    (∀ ops : List Op,
      StoreOK (applyOps s ops bookings) ∧ StoreWF (applyOps s ops bookings)) ∧
    (∀ (atype date_str start_time : String) (patient patient2 : Patient)
        (reason bid code created reason2 bid2 code2 created2 : String)
        (res1 : BookResult) (bs1 : List Booking) (res2 : BookResult)
        (bs2 : List Booking),
      book_appointment s bookings atype date_str start_time patient reason bid
        code created = (res1, bs1) →
      res1.status = "confirmed" →
      book_appointment s bs1 atype date_str start_time patient2 reason2 bid2
        code2 created2 = (res2, bs2) →
      res2.status = "failed") := by
  constructor
  · intro ops
    exact applyOps_preserves hwf ops bookings hOK hWF
  · intro atype date_str start_time patient patient2 reason bid code created
      reason2 bid2 code2 created2 res1 bs1 res2 bs2 h1 hc1 h2
    obtain ⟨d, st, bk, hpd, hpt, hav, hbs1, hbkdate, hbkstart, hbkend, hbkstat⟩ :=
      book_success_fields h1 hc1
    have hdur := getDuration_pos atype
    have hbound := isSlotAvailable_bound hwf hav
    have hmembk : bk ∈ bs1 := by
      rw [hbs1]
      simp
    have hav2 : _is_slot_available s bs1 d st (getDuration atype) = false := by
      rcases hv : _is_slot_available s bs1 d st (getDuration atype) with _ | _
      · rfl
      · exfalso
        have hnb := isSlotAvailable_noBlock hv bk hmembk
        unfold bookingBlocks at hnb
        rw [hbkstart, hbkend, hbkstat, hbkdate, renderDate_parseDate hpd] at hnb
        rw [hpt, parseTime_renderTime hbound] at hnb
        simp only [beq_self_eq_true, Bool.true_and, Bool.not_eq_false',
          Bool.or_eq_true, decide_eq_true_eq] at hnb
        omega
    have hfail : (book_appointment s bs1 atype date_str start_time patient2 reason2
        bid2 code2 created2).1.status = "failed" := book_result_failed hpd hpt hav2
    rw [h2] at hfail
    exact hfail

/-- Witness for C1: from the empty store, book Monday 10:00, cancel it, book
again; the invariant holds after the sequence, and an immediate identical
re-book of a confirmed slot fails. -/
theorem C1_witness :
    (StoreOK (applyOps demoSchedule
      [Op.bookOp "consultation" "2025-10-13" "10:00" demoPatient "visit"
        "APPT-20251012-CCCCCC" "CODE0001" "2025-10-12T08:00:00",
       Op.cancelOp "APPT-20251012-CCCCCC",
       Op.bookOp "consultation" "2025-10-13" "10:00" demoPatient "visit"
        "APPT-20251012-DDDDDD" "CODE0002" "2025-10-12T08:30:00"] [])) ∧
    (book_appointment demoSchedule
      (book_appointment demoSchedule [] "consultation" "2025-10-13" "10:00"
        demoPatient "visit" "APPT-20251012-EEEEEE" "CODE0003"
        "2025-10-12T08:00:00").2
      "consultation" "2025-10-13" "10:00" demoPatient "visit"
      "APPT-20251012-FFFFFF" "CODE0004" "2025-10-12T08:45:00").1.status = "failed" := by
  have h := C1_no_double_booking demoSchedule [] (by decide) List.Pairwise.nil
    (by intro b hb; cases hb)
  constructor
  · exact (h.1 _).1
  · exact h.2 "consultation" "2025-10-13" "10:00" demoPatient demoPatient "visit"
      "APPT-20251012-EEEEEE" "CODE0003" "2025-10-12T08:00:00" "visit"
      "APPT-20251012-FFFFFF" "CODE0004" "2025-10-12T08:45:00" _ _ _ _ rfl
      (by decide) rfl

theorem suggestInner_eq (date day_name : String) (num : Nat) :
    ∀ (slots : List Slot) (acc : List Suggestion),
      suggestInner date day_name num slots acc =
        acc ++ ((slots.map (tagSlot date day_name)).take (num - acc.length)) := by
  intro slots
  induction slots with
  | nil =>
    intro acc
    simp [suggestInner]
  | cons sl rest ih =>
    intro acc
    unfold suggestInner
    split
    case isTrue hle =>
      have : num - acc.length = 0 := by omega
      rw [this]
      simp
    case isFalse hlt =>
      rw [ih]
      have hsucc : num - acc.length = (num - (acc.length + 1)) + 1 := by omega
      rw [List.map_cons, hsucc, List.take_succ_cons]
      simp

theorem suggestOuter_eq (num : Nat) :
    ∀ (dates : List DateInfo) (acc : List Suggestion),
      suggestOuter num dates acc =
        acc ++ ((dates.flatMap (fun di => di.available_slots.map
          (tagSlot di.date di.day_name))).take (num - acc.length)) := by
  intro dates
  induction dates with
  | nil =>
    intro acc
    simp [suggestOuter]
  | cons di rest ih =>
    intro acc
    unfold suggestOuter
    rw [suggestInner_eq]
    rw [List.flatMap_cons, List.take_append_eq_append_take]
    dsimp only []
    split
    case isTrue hle =>
      have h1 : ((di.available_slots.map (tagSlot di.date di.day_name)).take
          (num - acc.length)).length ≤
          (di.available_slots.map (tagSlot di.date di.day_name)).length :=
        (List.take_sublist _ _).length_le
      rw [List.length_append] at hle
      have hz : num - acc.length - (di.available_slots.map
          (tagSlot di.date di.day_name)).length = 0 := by omega
      rw [hz]
      simp
    case isFalse hgt =>
      rw [List.length_append] at hgt
      have h2 : ((di.available_slots.map (tagSlot di.date di.day_name)).take
          (num - acc.length)).length ≤ num - acc.length := List.length_take_le _ _
      have hfull : (di.available_slots.map (tagSlot di.date di.day_name)).length ≤
          num - acc.length := by
        by_contra hcon
        push_neg at hcon
        have := List.length_take_of_le (Nat.le_of_lt hcon)
        omega
      rw [List.take_of_length_le hfull] at hgt ⊢
      rw [ih]
      rw [List.length_append]
      have harith : num - (acc.length + (di.available_slots.map
          (tagSlot di.date di.day_name)).length) =
          num - acc.length - (di.available_slots.map
            (tagSlot di.date di.day_name)).length := by omega
      rw [harith, List.append_assoc]

theorem findDatesLoop_eq (s : Schedule) (bookings : List Booking) (today : YMDDate)
    (atype : String) (tp : Option String) (max_dates : Nat) :
    ∀ (r i : Nat) (acc : List DateInfo), acc.length < max_dates →
      findDatesLoop s bookings today atype tp max_dates i r acc =
        acc ++ (((List.range' i r).filter (fun j =>
            decide ((daySlots s bookings today atype tp j).length > 0))).map
          (mkDateInfo s bookings today atype tp)).take (max_dates - acc.length) := by
  intro r
  induction r with
  | zero =>
    intro i acc hlt
    simp [findDatesLoop]
  | succ r ih =>
    intro i acc hlt
    rw [List.range'_succ]
    unfold findDatesLoop
    dsimp only []
    split
    case isTrue hq =>
      rw [List.filter_cons_of_pos (by simpa using hq)]
      rw [List.map_cons]
      split
      case isTrue hcap =>
        rw [List.length_append] at hcap
        have hm : max_dates - acc.length = 1 := by simp at hcap; omega
        rw [hm, List.take_succ_cons, List.take_zero]
        rfl
      case isFalse hcap =>
        rw [List.length_append] at hcap
        rw [ih (i + 1) _ (by simp at hcap ⊢; omega)]
        have hm : max_dates - acc.length = (max_dates - (acc.length + 1)) + 1 := by
          simp at hcap; omega
        rw [hm, List.take_succ_cons]
        simp [mkDateInfo, daySlots]
    case isFalse hq =>
      rw [List.filter_cons_of_neg (by simpa using hq)]
      exact ih (i + 1) acc hlt

theorem find_next_eq (s : Schedule) (bookings : List Booking) (today : YMDDate)
    (atype : String) (tp : Option String) (days max_dates : Nat)
    (hmax : 0 < max_dates) :
    find_next_available_dates s bookings today atype days max_dates tp =
      (((List.range' 1 days).filter (fun j =>
        decide ((daySlots s bookings today atype tp j).length > 0))).map
        (mkDateInfo s bookings today atype tp)).take max_dates := by
  unfold find_next_available_dates
  rw [findDatesLoop_eq s bookings today atype tp max_dates days 1 [] (by simpa using hmax)]
  simp

theorem suggest_none_eq (s : Schedule) (bookings : List Booking) (today : YMDDate)
    (atype : String) (tp : Option String) (num : Nat) :
    suggest_slots s bookings today none atype tp num =
      ((find_next_available_dates s bookings today atype 14 5 tp).flatMap
        (fun di => di.available_slots.map (tagSlot di.date di.day_name))).take num := by
  unfold suggest_slots
  rw [suggestOuter_eq]
  simp

/-- `get_available_slots_only` returns a sublist of the generated grid. -/
theorem gaso_sublist_grid (s : Schedule) (bookings : List Booking) (today : YMDDate)
    (ds atype : String) (tp : Option String) :
    (get_available_slots_only s bookings today ds atype tp).Sublist
      (get_availability s bookings today ds atype).available_slots := by
  unfold get_available_slots_only
  dsimp only []
  split
  · exact (List.filter_sublist _).trans (List.filter_sublist _)
  · exact List.filter_sublist _

/-- The generated grid is strictly sorted by start minute. -/
theorem availability_sorted {s : Schedule} (hwf : s.wf = true)
    (bookings : List Booking) (today : YMDDate) (ds atype : String) :
    List.Pairwise (fun a b => slotMins a < slotMins b)
      (get_availability s bookings today ds atype).available_slots := by
  by_cases hne : (get_availability s bookings today ds atype).available_slots = []
  · rw [hne]
    exact List.Pairwise.nil
  · obtain ⟨d, wh, ws, we, -, -, -, -, hwe, heq⟩ := availability_cases hwf hne
    rw [heq]
    exact genSlots_sorted s bookings d (getDuration atype) (slotStep s) (wf_step hwf)
      (parseTime_lt hwe) ws

/-- Every generated slot's start time parses, and `slotMins` is its value. -/
theorem availability_mem_parse {s : Schedule} (hwf : s.wf = true)
    {bookings : List Booking} {today : YMDDate} {ds atype : String} {sl : Slot}
    (hmem : sl ∈ (get_availability s bookings today ds atype).available_slots) :
    ∃ c, parseTime sl.start_time = some c ∧ slotMins sl = c := by
  obtain ⟨d, wh, ws, we, -, -, -, -, hwe, heq⟩ :=
    availability_cases hwf (List.ne_nil_of_mem hmem)
  rw [heq] at hmem
  obtain ⟨k, hk, hkeq⟩ := List.mem_iff_getElem.mp hmem
  have hwe14 : we < 1440 := parseTime_lt hwe
  obtain ⟨helem, hle, -⟩ := genSlots_elem_start s bookings d (getDuration atype)
    (slotStep s) (wf_step hwf) hwe14 hk
  rw [helem] at hkeq
  subst hkeq
  refine ⟨ws + k * slotStep s, ?_, ?_⟩
  · exact parseTime_renderTime (by omega)
  · unfold slotMins mkSlot
    rw [parseTime_renderTime (by omega)]
    rfl

theorem pairwise_flatMap_of {α β : Type _} {R : β → β → Prop} {r : α → α → Prop}
    {g : α → List β} :
    ∀ {l : List α}, (∀ a ∈ l, List.Pairwise R (g a)) →
      (∀ a b, a ∈ l → b ∈ l → r a b → ∀ x ∈ g a, ∀ y ∈ g b, R x y) →
      List.Pairwise r l → List.Pairwise R (l.flatMap g)
  | [], _, _, _ => by simp
  | a :: l, hin, hcross, hp => by
    rw [List.flatMap_cons, List.pairwise_append]
    rw [List.pairwise_cons] at hp
    refine ⟨hin a (List.mem_cons_self a l), ?_, ?_⟩
    · exact pairwise_flatMap_of
        (fun b hb => hin b (List.mem_cons_of_mem a hb))
        (fun b c hb hc => hcross b c (List.mem_cons_of_mem a hb)
          (List.mem_cons_of_mem a hc))
        hp.2
    · intro x hx y hy
      rw [List.mem_flatMap] at hy
      obtain ⟨b, hb, hyb⟩ := hy
      exact hcross a b (List.mem_cons_self a l) (List.mem_cons_of_mem a hb)
        (hp.1 b hb) x hx y hyb

/-- C6 (corrected): `suggest_slots` with no preferred date is day-major, but
each qualifying day contributes at most its first five available slots
(`find_next_available_dates` truncates each day's slot list to 5): the result
is the `num_suggestions`-prefix of the day-ordered concatenation of those
per-day contributions. -/
theorem C6_day_major (s : Schedule) (bookings : List Booking) (today : YMDDate)
    (atype : String) (tp : Option String) (num : Nat) :
    (suggest_slots s bookings today none atype tp num =
      ((find_next_available_dates s bookings today atype 14 5 tp).flatMap
        (fun di => di.available_slots.map (tagSlot di.date di.day_name))).take num) ∧
    ∀ di ∈ find_next_available_dates s bookings today atype 14 5 tp,
      ∃ j, 1 ≤ j ∧ j ≤ 14 ∧
        di.date = renderDate (addDays today j) ∧
        di.available_slots = (get_available_slots_only s bookings today
          (renderDate (addDays today j)) atype tp).take 5 ∧
        0 < (get_available_slots_only s bookings today
          (renderDate (addDays today j)) atype tp).length := by
  refine ⟨suggest_none_eq s bookings today atype tp num, ?_⟩
  intro di hdi
  rw [find_next_eq s bookings today atype tp 14 5 (by omega)] at hdi
  have hdi2 := (List.take_sublist 5 _).subset hdi
  rw [List.mem_map] at hdi2
  obtain ⟨j, hjmem, hmk⟩ := hdi2
  rw [List.mem_filter] at hjmem
  obtain ⟨hjr, hq⟩ := hjmem
  rw [List.mem_range'] at hjr
  obtain ⟨i, hi, hji⟩ := hjr
  subst hmk
  refine ⟨j, by omega, by omega, rfl, rfl, ?_⟩
  simpa using hq

/-- Counterexample for C6 as stated: with 20 suggestions requested, a Tuesday
(2025-10-14) slot appears in the result even though Monday 2025-10-13 still
has a matching available slot (11:30) that never appears, and the cap of 20
was not reached — because each day contributes at most 5 slots. -/
theorem C6_counterexample :
    ((⟨"11:30", "12:00", true⟩ : Slot) ∈ get_available_slots_only demoSchedule2 []
      demoToday "2025-10-13" "consultation" none) ∧
    ((suggest_slots demoSchedule2 [] demoToday none "consultation" none 20).any
      (fun x => x.date == "2025-10-14") = true) ∧
    ((suggest_slots demoSchedule2 [] demoToday none "consultation" none 20).length < 20) ∧
    ¬ ∃ x ∈ suggest_slots demoSchedule2 [] demoToday none "consultation" none 20,
        x.date = "2025-10-13" ∧ x.start_time = "11:30" := by
  refine ⟨by decide, by decide, by decide, by decide⟩

/-- Within one scanned day, the tagged suggestions share the day's date and
strictly ascend by parsed start time. -/
theorem dayTagged_sorted {s : Schedule} (hwf : s.wf = true)
    (bookings : List Booking) (today : YMDDate) (atype : String)
    (tp : Option String) (j : Nat) :
    List.Pairwise (fun x y : Suggestion => x.date = y.date ∧ ∃ tx ty,
      parseTime x.start_time = some tx ∧ parseTime y.start_time = some ty ∧ tx < ty)
      (((daySlots s bookings today atype tp j).take 5).map
        (tagSlot (renderDate (addDays today j)) (dayNameCap (pyWeekday (addDays today j))))) := by
  rw [List.pairwise_map]
  have hsub : ((daySlots s bookings today atype tp j).take 5).Sublist
      (get_availability s bookings today (renderDate (addDays today j)) atype).available_slots :=
    (List.take_sublist 5 _).trans
      (gaso_sublist_grid s bookings today (renderDate (addDays today j)) atype tp)
  have hsorted : List.Pairwise (fun a b => slotMins a < slotMins b)
      ((daySlots s bookings today atype tp j).take 5) :=
    List.Pairwise.sublist hsub
      (availability_sorted hwf bookings today (renderDate (addDays today j)) atype)
  refine hsorted.imp_of_mem ?_
  intro a b ha hb hml
  obtain ⟨ca, hpa, hma⟩ := availability_mem_parse hwf (hsub.subset ha)
  obtain ⟨cb, hpb, hmb⟩ := availability_mem_parse hwf (hsub.subset hb)
  exact ⟨rfl, ca, cb, hpa, hpb, by omega⟩

/-- C7: `suggest_slots` with no preferred date returns at most
`num_suggestions` entries; every entry's date is `today + j` for some offset
`1 ≤ j ≤ 14` (strictly after today); and the list is grouped in strictly
ascending date order with strictly ascending start times within a date. -/
theorem C7_suggestion_order (s : Schedule) (bookings : List Booking) (today : YMDDate)
    (atype : String) (tp : Option String) (num : Nat)
    (hwf : s.wf = true) (hv : today.valid = true) (hy : today.year + 15 ≤ 9999) :
    (suggest_slots s bookings today none atype tp num).length ≤ num ∧
    (∀ x ∈ suggest_slots s bookings today none atype tp num,
      ∃ j, 1 ≤ j ∧ j ≤ 14 ∧ x.date = renderDate (addDays today j) ∧
        parseDate x.date = some (addDays today j) ∧
        dateLt today (addDays today j) = true) ∧
    List.Pairwise (fun x y =>
      (∃ dx dy, parseDate x.date = some dx ∧ parseDate y.date = some dy ∧
        dateLt dx dy = true) ∨
      (x.date = y.date ∧ ∃ tx ty, parseTime x.start_time = some tx ∧
        parseTime y.start_time = some ty ∧ tx < ty))
      (suggest_slots s bookings today none atype tp num) := by
  have hflat : suggest_slots s bookings today none atype tp num =
      ((((List.range' 1 14).filter (fun j =>
        decide ((daySlots s bookings today atype tp j).length > 0))).take 5).flatMap
        (fun j => ((daySlots s bookings today atype tp j).take 5).map
          (tagSlot (renderDate (addDays today j))
            (dayNameCap (pyWeekday (addDays today j)))))).take num := by
    rw [suggest_none_eq s bookings today atype tp num,
      find_next_eq s bookings today atype tp 14 5 (by omega), ← List.map_take,
      List.flatMap_map]
    rfl
  have hsubjs : ((((List.range' 1 14).filter (fun j =>
      decide ((daySlots s bookings today atype tp j).length > 0))).take 5)).Sublist
      (List.range' 1 14) :=
    (List.take_sublist _ _).trans (List.filter_sublist _)
  have hjsmem : ∀ j ∈ (((List.range' 1 14).filter (fun j =>
      decide ((daySlots s bookings today atype tp j).length > 0))).take 5),
      1 ≤ j ∧ j ≤ 14 := by
    intro j hj
    have hm := hsubjs.subset hj
    rw [List.mem_range'] at hm
    obtain ⟨i, hi, hji⟩ := hm
    omega
  have hjspair : List.Pairwise (fun a b => a < b) (((List.range' 1 14).filter (fun j =>
      decide ((daySlots s bookings today atype tp j).length > 0))).take 5) :=
    List.Pairwise.sublist hsubjs (List.pairwise_lt_range' 1 14)
  refine ⟨?_, ?_, ?_⟩
  · rw [hflat]
    exact List.length_take_le num _
  · intro x hx
    rw [hflat] at hx
    have hx2 := (List.take_sublist num _).subset hx
    rw [List.mem_flatMap] at hx2
    obtain ⟨j, hjmem, hxj⟩ := hx2
    rw [List.mem_map] at hxj
    obtain ⟨sl, hsl, htag⟩ := hxj
    obtain ⟨hj1, hj14⟩ := hjsmem j hjmem
    have hvj := (addDays_valid hv j (by omega)).1
    refine ⟨j, hj1, hj14, ?_, ?_, ?_⟩
    · rw [← htag]
      rfl
    · rw [← htag]
      exact parseDate_renderDate hvj
    · have hlt0 := addDays_lt hv (show today.year + j ≤ 9999 by omega)
        (show 0 < j by omega)
      exact hlt0
  · rw [hflat]
    apply List.Pairwise.sublist (List.take_sublist num _)
    apply pairwise_flatMap_of
    · intro j hj
      exact (dayTagged_sorted hwf bookings today atype tp j).imp (fun h => Or.inr h)
    · intro j1 j2 hj1 hj2 hlt x hx y hy
      rw [List.mem_map] at hx hy
      obtain ⟨slx, -, htagx⟩ := hx
      obtain ⟨sly, -, htagy⟩ := hy
      obtain ⟨hj1a, hj1b⟩ := hjsmem j1 hj1
      obtain ⟨hj2a, hj2b⟩ := hjsmem j2 hj2
      left
      refine ⟨addDays today j1, addDays today j2, ?_, ?_, ?_⟩
      · rw [← htagx]
        exact parseDate_renderDate (addDays_valid hv j1 (by omega)).1
      · rw [← htagy]
        exact parseDate_renderDate (addDays_valid hv j2 (by omega)).1
      · exact addDays_lt hv (by omega) hlt
    · exact hjspair

/-- Witness for C7 at the concrete schedule, empty store, Sunday 2025-10-12,
five suggestions. -/
theorem C7_witness :
    (suggest_slots demoSchedule [] demoToday none "consultation" none 5).length ≤ 5 ∧
    (∀ x ∈ suggest_slots demoSchedule [] demoToday none "consultation" none 5,
      ∃ j, 1 ≤ j ∧ j ≤ 14 ∧ x.date = renderDate (addDays demoToday j) ∧
        parseDate x.date = some (addDays demoToday j) ∧
        dateLt demoToday (addDays demoToday j) = true) ∧
    List.Pairwise (fun x y =>
      (∃ dx dy, parseDate x.date = some dx ∧ parseDate y.date = some dy ∧
        dateLt dx dy = true) ∨
      (x.date = y.date ∧ ∃ tx ty, parseTime x.start_time = some tx ∧
        parseTime y.start_time = some ty ∧ tx < ty))
      (suggest_slots demoSchedule [] demoToday none "consultation" none 5) :=
  C7_suggestion_order demoSchedule [] demoToday "consultation" none 5
    (by decide) (by decide) (by decide)

end Sched
